import Mathlib

/-!
# Multi-device matrix multiplication: the host code of `mat_mul.c`

A shallow embedding of the host-side dispatch code (`mat_mul_init`, `mat_mul`)
and the properties of its row partition, host slices, launch grid and buffer
sizes.

Machine model.  `int` is a 32-bit two's-complement integer; the result of every
`int` operation is reduced with `wrapInt` (ISO C leaves signed overflow
undefined, the targets this code is built for wrap around).  `size_t` is a
64-bit unsigned integer, arithmetic is modulo `2^64`.  `sizeof(float)` is 4.
-/

namespace MatMul

/-! ## Machine arithmetic -/

/-- Largest value of a C `int`. -/
def INT_MAX : Int := 2147483647

/-- Reduction of a mathematical integer to the 32-bit two's-complement range. -/
def wrapInt (x : Int) : Int := (x + 2147483648) % 4294967296 - 2147483648

/-- Number of values of a `size_t`. -/
def SIZE_MOD : Nat := 18446744073709551616

/-- Conversion of an `int` to `size_t` (value modulo `2^64`). -/
def toSizeT (x : Int) : Nat := (x % 18446744073709551616).toNat

/-- The C expression `a + b` on `int`. -/
def iadd (a b : Int) : Int := wrapInt (a + b)

/-- The C expression `a - b` on `int`. -/
def isub (a b : Int) : Int := wrapInt (a - b)

/-- The C expression `a * b` on `int`. -/
def imul (a b : Int) : Int := wrapInt (a * b)

/-- The C expression `a / b` on `int`: division truncating toward zero. -/
def idiv (a b : Int) : Int := wrapInt (Int.tdiv a b)

/-- The C expression `a + b` on `size_t`. -/
def zadd (a b : Nat) : Nat := (a + b) % SIZE_MOD

/-- The C expression `a - b` on `size_t`. -/
def zsub (a b : Nat) : Nat := (a + (SIZE_MOD - b % SIZE_MOD)) % SIZE_MOD

/-- The C expression `a * b` on `size_t`. -/
def zmul (a b : Nat) : Nat := (a * b) % SIZE_MOD

/-- The C expression `a / b` on `size_t`. -/
def zdiv (a b : Nat) : Nat := a / b

/-- The constant `sizeof(float)`, of type `size_t`. -/
def sizeofFloat : Nat := 4

/-! ## Constants of `mat_mul.c` -/

/-- The constant `BS` (`#define BS 56`), the row extent of a work-group. -/
def BS : Int := 56

/-- The constant `ITEMS` (`#define ITEMS 8`), the outputs computed per work-item. -/
def ITEMS : Int := 8

/-- The constant `MAX_DEV` (`#define MAX_DEV 4`), the capacity of the device arrays. -/
def MAX_DEV : Int := 4

/-! ## `mat_mul_init` -/

/-- Lines 151-152 of `mat_mul_init`: the device count kept in `ndev`.
`available` is the count that `clGetDeviceIDs` stored in `ndev` (line 149),
read as the `int` that `ndev` is. -/
def mat_mul_init_ndev (available M : Int) : Int :=
  let ndev := if available < M then available else M
  if ndev < MAX_DEV then ndev else MAX_DEV

/-- Lines 149-154 of `mat_mul_init` with the two `CHECK_ERROR`s: `none` when the
process exits.  The first query fails when the platform has no GPU device
(`CL_DEVICE_NOT_FOUND`), the second when it is asked for zero entries
(`CL_INVALID_VALUE`); otherwise `ndev` devices are in use. -/
def mat_mul_init_devices (available M : Int) : Option Int :=
  if available < 1 then none
  else if mat_mul_init_ndev available M = 0 then none
  else some (mat_mul_init_ndev available M)

/-- Line 177 of `mat_mul_init`: `MD[i] = M * (i + 1) / ndev - M * i / ndev`,
computed in `int` and stored in a `size_t`. -/
def MD (M ndev : Int) (i : Nat) : Nat :=
  toSizeT (isub (idiv (imul M (iadd i 1)) ndev) (idiv (imul M i) ndev))

/-- Line 177 of `mat_mul_init`: the `int` value of the right-hand side
`M * (i + 1) / ndev - M * i / ndev`, before it is stored in the `size_t` entry
`MD[i]`. -/
def MD_int (M ndev : Int) (i : Nat) : Int :=
  isub (idiv (imul M (iadd i 1)) ndev) (idiv (imul M i) ndev)

/-- Lines 176-178 of `mat_mul_init`: the entries of `MD` written by the loop
`for (int i = 0; i < ndev; i++)`. -/
def mat_mul_init_MD (M ndev : Int) : List Nat :=
  (List.range ndev.toNat).map (MD M ndev)

/-- The number of rows given to the devices before device `i`:
`MD[0] + ... + MD[i-1]`. -/
def rowsBefore (md : Nat → Nat) (i : Nat) : Nat :=
  ((List.range i).map md).sum

/-! ## Device buffers requested by `mat_mul_init` -/

/-- The three buffers of a device: `a_d[i]`, `b_d[i]`, `c_d[i]`. -/
inductive Buf where
  | a_d
  | b_d
  | c_d
  deriving DecidableEq, Repr

/-- A call of `clCreateBuffer`: the device, the buffer and the requested byte size. -/
structure BufferRequest where
  dev : Nat
  buf : Buf
  bytes : Nat
  deriving DecidableEq, Repr

/-- Lines 181-188 of `mat_mul_init`: the buffers requested, in program order.
`MD[i] * K * sizeof(float)` is a `size_t` product; in `K * N * sizeof(float)`
the product `K * N` is an `int` product, converted to `size_t` afterwards. -/
def mat_mul_init_buffers (M N K ndev : Int) : List BufferRequest :=
  (List.range ndev.toNat).flatMap fun i =>
    [ { dev := i, buf := Buf.a_d, bytes := zmul (zmul (MD M ndev i) (toSizeT K)) sizeofFloat },
      { dev := i, buf := Buf.b_d, bytes := zmul (toSizeT (imul K N)) sizeofFloat },
      { dev := i, buf := Buf.c_d, bytes := zmul (zmul (MD M ndev i) (toSizeT N)) sizeofFloat } ]

/-- The call `clCreateBuffer(context, CL_MEM_READ_WRITE, size, NULL, &err)` with
its `CHECK_ERROR`, on devices whose `CL_DEVICE_MAX_MEM_ALLOC_SIZE` is `maxAlloc`:
the call returns `CL_INVALID_BUFFER_SIZE`, and the process exits, when `size` is 0
or above `maxAlloc`.  The result is `true` when the process goes on. -/
def clCreateBuffer (maxAlloc size : Nat) : Bool :=
  decide (0 < size ∧ size ≤ maxAlloc)

/-- Lines 181-188 of `mat_mul_init` with their `CHECK_ERROR`s: `true` when every
buffer request is granted, so that `mat_mul_init` goes on to return and `mat_mul`
can be called; `false` when the process exits in `mat_mul_init`. -/
def mat_mul_init_allocates (maxAlloc : Nat) (M N K ndev : Int) : Bool :=
  (mat_mul_init_buffers M N K ndev).all fun r => clCreateBuffer maxAlloc r.bytes

/-! ## `mat_mul`: transfers

`mat_mul` reads the globals `ndev` and `MD` that `mat_mul_init` wrote; they are
the parameters `ndev` and `md` below. -/

/-- A blocking host/device transfer: the device, its buffer, the byte count and
the byte offset of the host pointer from the start of the host matrix. -/
structure Transfer where
  dev : Nat
  buf : Buf
  bytes : Nat
  host : Nat
  deriving DecidableEq, Repr

/-- Lines 31-38: the value of `nextA - (size_t)A` on entry to iteration `i` of
the upload loop. -/
def nextA (K : Int) (md : Nat → Nat) : Nat → Nat
  | 0 => 0
  | i + 1 => zadd (nextA K md i) (zmul (zmul (md i) (toSizeT K)) sizeofFloat)

/-- Lines 72-77: the value of `nextC - (size_t)C` on entry to iteration `i` of
the download loop. -/
def nextC (N : Int) (md : Nat → Nat) : Nat → Nat
  | 0 => 0
  | i + 1 => zadd (nextC N md i) (zmul (zmul (md i) (toSizeT N)) sizeofFloat)

/-- Lines 32-38 of `mat_mul`: the `clEnqueueWriteBuffer` calls, in program order. -/
def mat_mul_writes (N K ndev : Int) (md : Nat → Nat) : List Transfer :=
  (List.range ndev.toNat).flatMap fun i =>
    [ { dev := i, buf := Buf.a_d, bytes := zmul (zmul (md i) (toSizeT K)) sizeofFloat,
        host := nextA K md i },
      { dev := i, buf := Buf.b_d, bytes := zmul (toSizeT (imul K N)) sizeofFloat, host := 0 } ]

/-- Lines 73-77 of `mat_mul`: the `clEnqueueReadBuffer` calls, in program order. -/
def mat_mul_reads (N ndev : Int) (md : Nat → Nat) : List Transfer :=
  (List.range ndev.toNat).map fun i =>
    { dev := i, buf := Buf.c_d, bytes := zmul (zmul (md i) (toSizeT N)) sizeofFloat,
      host := nextC N md i }

/-- The bytes `[host, host + bytes)` of the host matrix that a transfer touches. -/
def Transfer.covers (t : Transfer) (b : Nat) : Prop :=
  t.host ≤ b ∧ b < t.host + t.bytes

instance (t : Transfer) (b : Nat) : Decidable (t.covers b) := by
  unfold Transfer.covers; infer_instance

/-! ## `mat_mul`: the launch grid -/

/-- Line 58: `lws[2] = {BS, BS / ITEMS}`. -/
def lws (d : Nat) : Nat :=
  if d = 0 then toSizeT BS else toSizeT (idiv BS ITEMS)

/-- Line 58: the initial `gws[2] = {(M + ndev - 1) / ndev, (N + ITEMS - 1) / ITEMS}`,
`int` expressions stored in `size_t`. -/
def gws_init (M N ndev : Int) (d : Nat) : Nat :=
  if d = 0 then toSizeT (idiv (isub (iadd M ndev) 1) ndev)
  else toSizeT (idiv (isub (iadd N ITEMS) 1) ITEMS)

/-- Line 63: `(g + l - 1) / l * l` in `size_t` arithmetic. -/
def roundUp (g l : Nat) : Nat :=
  zmul (zdiv (zsub (zadd g l) 1) l) l

/-- Lines 59-64: `gws` after the rounding loop. -/
def gws (M N ndev : Int) (d : Nat) : Nat :=
  roundUp (gws_init M N ndev d) (lws d)

/-- A call of `clEnqueueNDRangeKernel` with a 2-dimensional grid. -/
structure Launch where
  dev : Nat
  global0 : Nat
  global1 : Nat
  local0 : Nat
  local1 : Nat
  deriving DecidableEq, Repr

/-- Lines 66-69 of `mat_mul`: the kernel launches, in program order. -/
def mat_mul_launches (M N ndev : Int) : List Launch :=
  (List.range ndev.toNat).map fun i =>
    { dev := i, global0 := gws M N ndev 0, global1 := gws M N ndev 1,
      local0 := lws 0, local1 := lws 1 }

/-! ## `mat_mul`: data flow

Memory holds `float`s; element `j` of a region occupies the bytes
`[4 * j, 4 * j + 4)`.  Values are exact integers. -/

/-- A region of `float`s, indexed by element. -/
abbrev Mem := Nat → Int

/-- The call `clEnqueueWriteBuffer(queue, buf, CL_TRUE, 0, cb, ptr, ...)`: the first `cb`
bytes of `buf` are replaced by the host bytes at `ptr` (a byte offset into
`host`).  The result is the new content of `buf`. -/
def clEnqueueWriteBuffer (buf : Mem) (cb : Nat) (host : Mem) (ptr : Nat) : Mem :=
  fun j => if 4 * j + 4 ≤ cb then host (ptr / 4 + j) else buf j

/-- The call `clEnqueueReadBuffer(queue, buf, CL_TRUE, 0, cb, ptr, ...)`: the host bytes at
`ptr` are replaced by the first `cb` bytes of `buf`.  The result is the new
content of `host`. -/
def clEnqueueReadBuffer (buf : Mem) (cb : Nat) (host : Mem) (ptr : Nat) : Mem :=
  fun j => if ptr / 4 ≤ j ∧ 4 * (j - ptr / 4) + 4 ≤ cb then buf (j - ptr / 4) else host j

/-- The behaviour of a compiled kernel: from the contents of the buffers bound to
its arguments 0, 1, 2 and the scalar arguments `rows`, `N`, `K` to the content of
the output buffer (argument 2) after the launch. -/
abbrev Kernel := Mem → Mem → Mem → Int → Int → Int → Mem

/-- Modelled from the spec: the contract of the kernel `sgemm` of `kernel.cl`,
which is not part of the sources.  The kernel computes
`C_slice[r][n] = sum_k A_slice[r][k] * B[k][n]` for `r` in `[0, rows)`, on
row-major matrices. -/
def KernelContract (kernel : Kernel) : Prop :=
  ∀ (a b c : Mem) (rows N K : Int) (j : Nat),
    0 < N → ((j / N.toNat : Nat) : Int) < rows →
    kernel a b c rows N K j =
      ((List.range K.toNat).map fun k =>
        a (j / N.toNat * K.toNat + k) * b (k * N.toNat + j % N.toNat)).sum

/-- Modelled from the spec: a kernel `sgemm` that does what the contract of
`kernel.cl` says and leaves the rest of `c` as it was. -/
def sgemm : Kernel :=
  fun a b c rows N K j =>
    if 0 < N ∧ ((j / N.toNat : Nat) : Int) < rows then
      ((List.range K.toNat).map fun k =>
        a (j / N.toNat * K.toNat + k) * b (k * N.toNat + j % N.toNat)).sum
    else c j

/-- The reference product of a row-major `A` (rows of `K` elements) and a
row-major `B` (`K` rows of `N` elements), as a row-major matrix with rows of
`N` elements. -/
def matProduct (A B : Mem) (N K : Int) : Mem :=
  fun j =>
    ((List.range K.toNat).map fun k =>
      A (j / N.toNat * K.toNat + k) * B (k * N.toNat + j % N.toNat)).sum

/-- The content of the three buffers of one device. -/
structure DeviceMem where
  a_d : Mem
  b_d : Mem
  c_d : Mem

/-- Lines 32-38 of `mat_mul`, iteration `i`: the buffers of device `i` after its
two uploads. -/
def mat_mul_upload (A B : Mem) (N K : Int) (md : Nat → Nat) (dev : Nat → DeviceMem)
    (i : Nat) : DeviceMem :=
  { a_d := clEnqueueWriteBuffer (dev i).a_d (zmul (zmul (md i) (toSizeT K)) sizeofFloat) A
      (nextA K md i)
    b_d := clEnqueueWriteBuffer (dev i).b_d (zmul (toSizeT (imul K N)) sizeofFloat) B 0
    c_d := (dev i).c_d }

/-- Line 48: `clSetKernelArg(kernel[i], 3, sizeof(int), &MD[i])` passes the first
`sizeof(int)` bytes of the `size_t` entry `MD[i]`; on a little-endian host these
are its low 32 bits, read by the kernel as an `int`. -/
def rowsArg (md : Nat → Nat) (i : Nat) : Int :=
  wrapInt (md i)

/-- Lines 41-54 and 66-69 of `mat_mul`, device `i`: the content of `c_d[i]` after
the kernel has run with the arguments `a_d[i]`, `b_d[i]`, `c_d[i]`, `MD[i]`, `N`,
`K`. -/
def mat_mul_kernel (kernel : Kernel) (A B : Mem) (N K : Int) (md : Nat → Nat)
    (dev : Nat → DeviceMem) (i : Nat) : Mem :=
  kernel (mat_mul_upload A B N K md dev i).a_d (mat_mul_upload A B N K md dev i).b_d
    (mat_mul_upload A B N K md dev i).c_d (rowsArg md i) N K

/-- Lines 72-77 of `mat_mul`: the host matrix `C` after the first `n` iterations
of the download loop, `cd i` being the content of `c_d[i]`. -/
def mat_mul_download (cd : Nat → Mem) (N : Int) (md : Nat → Nat) (C : Mem) : Nat → Mem
  | 0 => C
  | i + 1 =>
    clEnqueueReadBuffer (cd i) (zmul (zmul (md i) (toSizeT N)) sizeofFloat)
      (mat_mul_download cd N md C i) (nextC N md i)

/-- What a call of `mat_mul` does: the transfers and launches it issues and the
content of the host matrix `C` when it returns. -/
structure Run where
  writes : List Transfer
  launches : List Launch
  reads : List Transfer
  C : Mem

/-- The function `mat_mul` (lines 29-84), run with the compiled kernel, the
globals `ndev` and `MD` and the device buffer contents `dev`. -/
def mat_mul (kernel : Kernel) (A B C : Mem) (M N K : Int) (ndev : Int) (md : Nat → Nat)
    (dev : Nat → DeviceMem) : Run :=
  { writes := mat_mul_writes N K ndev md
    launches := mat_mul_launches M N ndev
    reads := mat_mul_reads N ndev md
    C := mat_mul_download (mat_mul_kernel kernel A B N K md dev) N md C ndev.toNat }

/-- Device buffers holding zeros. -/
def zeroDevice : DeviceMem :=
  { a_d := fun _ => 0, b_d := fun _ => 0, c_d := fun _ => 0 }

/-! ## Lemmas on the machine arithmetic -/

theorem tdiv_cases (a b : Int) (hb : 0 < b) :
    Int.tdiv a b = if 0 ≤ a then a / b else -((-a) / b) := by
  split
  · exact Int.tdiv_eq_ediv ‹_› (le_of_lt hb)
  · rw [← Int.tdiv_eq_ediv (by omega) (le_of_lt hb), Int.neg_tdiv, neg_neg]

theorem wrapInt_bounds (x : Int) : -2147483648 ≤ wrapInt x ∧ wrapInt x < 2147483648 := by
  unfold wrapInt; omega

theorem wrapInt_id (x : Int) (h1 : -2147483648 ≤ x) (h2 : x < 2147483648) :
    wrapInt x = x := by
  unfold wrapInt; omega

theorem wrapInt_cases (x : Int) (h0 : 0 ≤ x) (h1 : x < 8589934592) :
    (x < 2147483648 ∧ wrapInt x = x) ∨
    (2147483648 ≤ x ∧ x < 6442450944 ∧ wrapInt x = x - 4294967296) ∨
    (6442450944 ≤ x ∧ wrapInt x = x - 8589934592) := by
  unfold wrapInt; omega

theorem tdiv_bounds (a n : Int) (h1 : 1 ≤ n) (ha : -2147483648 ≤ a) (ha2 : a < 2147483648) :
    -2147483648 ≤ Int.tdiv a n ∧ Int.tdiv a n < 2147483648 := by
  rw [tdiv_cases _ _ (by omega)]
  split
  · have h := Int.ediv_le_self n (show 0 ≤ a by omega)
    have h2 := Int.ediv_nonneg (show 0 ≤ a by omega) (show 0 ≤ n by omega)
    omega
  · have h := Int.ediv_le_self n (show 0 ≤ -a by omega)
    have h2 := Int.ediv_nonneg (show 0 ≤ -a by omega) (show 0 ≤ n by omega)
    omega

theorem toSizeT_of_nonneg (x : Int) (h0 : 0 ≤ x) (h1 : x < 18446744073709551616) :
    (toSizeT x : Int) = x := by
  unfold toSizeT; omega

/-! ## The device count -/

theorem mat_mul_init_ndev_range (available M : Int) (ha : 1 ≤ available) (hM : 0 < M) :
    1 ≤ mat_mul_init_ndev available M ∧ mat_mul_init_ndev available M ≤ MAX_DEV ∧
      mat_mul_init_ndev available M ≤ M := by
  unfold mat_mul_init_ndev MAX_DEV
  simp only []
  split <;> split <;> omega

/-! ## The row partition -/

/-- The entry `MD[i]` is the `size_t` image of the `int` computed on line 177. -/
theorem MD_eq_toSizeT (M ndev : Int) (i : Nat) : MD M ndev i = toSizeT (MD_int M ndev i) := rfl

/-- At the first index whose product on line 177 overflows, the `int` row count is
negative, of absolute value at most `1610612736`. -/
theorem MD_int_first_overflow (M ndev : Int) (i : Nat) (hM : 0 < M) (hM2 : M ≤ 2147483647)
    (h1 : 1 ≤ ndev) (h4 : ndev ≤ 4) (hn : ndev ≤ M) (hi : (i : Int) < ndev)
    (hlo : M * i ≤ 2147483647) (hhi : 2147483647 < M * (i + 1)) :
    MD_int M ndev i < 0 ∧ -1610612736 ≤ MD_int M ndev i := by
  unfold MD_int isub idiv imul iadd
  have hi' : i < 4 := by omega
  rw [wrapInt_id ((i : Int) + 1) (by omega) (by omega),
    wrapInt_id (M * (i : Int)) (by have := mul_nonneg (le_of_lt hM) (Int.ofNat_nonneg i); omega)
      (by omega)]
  have ha := wrapInt_cases (M * ((i : Int) + 1))
  have ha' := wrapInt_bounds (M * ((i : Int) + 1))
  generalize wrapInt (M * ((i : Int) + 1)) = a at *
  have hqa := tdiv_bounds a ndev h1 ha'.1 ha'.2
  have hqb := tdiv_bounds (M * (i : Int)) ndev h1
    (by have := mul_nonneg (le_of_lt hM) (Int.ofNat_nonneg i); omega) (by omega)
  rw [wrapInt_id _ hqa.1 hqa.2, wrapInt_id _ hqb.1 hqb.2]
  clear hqa hqb
  have key : (if 0 ≤ a then a / ndev else -(-a / ndev)) -
      (if 0 ≤ M * (i : Int) then M * (i : Int) / ndev else -(-(M * (i : Int)) / ndev)) < 0 ∧
      -1610612736 ≤ (if 0 ≤ a then a / ndev else -(-a / ndev)) -
      (if 0 ≤ M * (i : Int) then M * (i : Int) / ndev else -(-(M * (i : Int)) / ndev)) := by
    interval_cases ndev <;> interval_cases i <;>
      simp only [Nat.cast_zero, Nat.cast_one, Nat.cast_ofNat] at * <;>
      have ha := ha (by omega) (by omega) <;>
      split <;> split <;> omega
  rw [tdiv_cases _ _ (by omega), tdiv_cases _ _ (by omega)]
  rw [wrapInt_id _ (by omega) (by omega)]
  exact key

/-- When a product on line 177 overflows, one device has a negative `int` row
count, of absolute value at most `1610612736`. -/
theorem MD_int_overflow (M ndev : Int) (hM : 0 < M) (hM2 : M ≤ 2147483647)
    (h1 : 1 ≤ ndev) (h4 : ndev ≤ 4) (hn : ndev ≤ M) (hov : 2147483647 < M * ndev) :
    ∃ i : Nat, (i : Int) < ndev ∧ MD_int M ndev i < 0 ∧ -1610612736 ≤ MD_int M ndev i := by
  have step : ∀ i : Nat, (i : Int) < ndev → M * i ≤ 2147483647 →
      2147483647 < M * ((i : Int) + 1) →
      ∃ j : Nat, (j : Int) < ndev ∧ MD_int M ndev j < 0 ∧ -1610612736 ≤ MD_int M ndev j :=
    fun i hi hlo hhi => ⟨i, hi, MD_int_first_overflow M ndev i hM hM2 h1 h4 hn hi hlo hhi⟩
  have h2 : 2 ≤ ndev := by
    by_contra h
    have e : ndev = 1 := by omega
    rw [e] at hov
    omega
  by_cases c1 : 2147483647 < M * 2
  · exact step 1 (by push_cast; omega) (by push_cast; omega) (by push_cast; omega)
  · have h3 : 3 ≤ ndev := by
      by_contra h
      have e : ndev = 2 := by omega
      rw [e] at hov
      omega
    by_cases c2 : 2147483647 < M * 3
    · exact step 2 (by push_cast; omega) (by push_cast; omega) (by push_cast; omega)
    · have e : ndev = 4 := by
        by_contra h
        have e : ndev = 3 := by omega
        rw [e] at hov
        omega
      rw [e] at hov
      exact step 3 (by push_cast; omega) (by push_cast; omega) (by push_cast; omega)

/-- Without overflow line 177 computes the difference of two floors. -/
theorem MD_exact (M ndev : Int) (i : Nat) (hM : 0 < M) (h1 : 1 ≤ ndev)
    (hov : M * ndev ≤ 2147483647) (hi : (i : Int) < ndev) :
    (MD M ndev i : Int) = M * (i + 1) / ndev - M * i / ndev ∧
      M * i / ndev ≤ M * (i + 1) / ndev ∧ 0 ≤ M * i / ndev ∧
      M * (i + 1) / ndev ≤ 2147483647 := by
  have hi0 : (0 : Int) ≤ i := Int.ofNat_nonneg i
  have hM0 : (0 : Int) ≤ M := le_of_lt hM
  have hp1 : M * ((i : Int) + 1) ≤ M * ndev := mul_le_mul_of_nonneg_left (by omega) hM0
  have hp2 : M * (i : Int) ≤ M * ((i : Int) + 1) := mul_le_mul_of_nonneg_left (by omega) hM0
  have hp0 : 0 ≤ M * (i : Int) := mul_nonneg hM0 hi0
  have hq0 : 0 ≤ M * (i : Int) / ndev := Int.ediv_nonneg hp0 (by omega)
  have hq1 : M * ((i : Int) + 1) / ndev ≤ M * ((i : Int) + 1) :=
    Int.ediv_le_self ndev (by omega)
  have hq2 : M * (i : Int) / ndev ≤ M * ((i : Int) + 1) / ndev :=
    Int.ediv_le_ediv (by omega) hp2
  have hnd : ndev ≤ M * ndev := le_mul_of_one_le_left (by omega) (by omega)
  refine ⟨?_, hq2, hq0, by omega⟩
  unfold MD isub idiv imul iadd
  rw [wrapInt_id ((i : Int) + 1) (by omega) (by omega),
    wrapInt_id (M * ((i : Int) + 1)) (by omega) (by omega),
    wrapInt_id (M * (i : Int)) (by omega) (by omega),
    Int.tdiv_eq_ediv (show 0 ≤ M * ((i : Int) + 1) by omega) (show 0 ≤ ndev by omega),
    Int.tdiv_eq_ediv hp0 (show 0 ≤ ndev by omega),
    wrapInt_id (M * ((i : Int) + 1) / ndev) (by omega) (by omega),
    wrapInt_id (M * (i : Int) / ndev) (by omega) (by omega),
    wrapInt_id _ (by omega) (by omega)]
  exact toSizeT_of_nonneg _ (by omega) (by omega)

theorem rowsBefore_succ (md : Nat → Nat) (i : Nat) :
    rowsBefore md (i + 1) = rowsBefore md i + md i := by
  unfold rowsBefore
  rw [List.range_succ, List.map_append, List.sum_append]
  simp

/-- Without overflow the rows before device `i` are `floor(M * i / ndev)`. -/
theorem rowsBefore_exact (M ndev : Int) (hM : 0 < M) (h1 : 1 ≤ ndev)
    (hov : M * ndev ≤ 2147483647) (i : Nat) (hi : (i : Int) ≤ ndev) :
    (rowsBefore (MD M ndev) i : Int) = M * i / ndev := by
  induction i with
  | zero => simp [rowsBefore]
  | succ k ih =>
    have hk : (k : Int) < ndev := by push_cast at hi; omega
    obtain ⟨e, -, -, -⟩ := MD_exact M ndev k hM h1 hov hk
    have ih' := ih (by omega)
    rw [rowsBefore_succ]
    push_cast
    rw [ih', e]
    omega

theorem rowsBefore_mono (md : Nat → Nat) (i j : Nat) (h : i ≤ j) :
    rowsBefore md i ≤ rowsBefore md j := by
  induction j with
  | zero =>
    have : i = 0 := by omega
    subst this
    exact le_refl _
  | succ k ih =>
    rcases Nat.eq_or_lt_of_le h with e | hlt
    · subst e
      exact le_refl _
    · have := ih (by omega)
      rw [rowsBefore_succ]
      omega

/-- Without overflow all rows are given out: the rows before device `ndev`
are `M`. -/
theorem rowsBefore_total (M ndev : Int) (hM : 0 < M) (h1 : 1 ≤ ndev)
    (hov : M * ndev ≤ 2147483647) :
    (rowsBefore (MD M ndev) ndev.toNat : Int) = M := by
  rw [rowsBefore_exact M ndev hM h1 hov ndev.toNat (by omega)]
  rw [Int.toNat_of_nonneg (by omega)]
  exact Int.mul_ediv_cancel M (by omega)

theorem mat_mul_init_MD_sum (M ndev : Int) :
    (mat_mul_init_MD M ndev).sum = rowsBefore (MD M ndev) ndev.toNat := rfl

theorem mem_mat_mul_init_MD (M ndev : Int) (a : Nat) :
    a ∈ mat_mul_init_MD M ndev ↔ ∃ i : Nat, (i : Int) < ndev ∧ MD M ndev i = a := by
  unfold mat_mul_init_MD
  rw [List.mem_map]
  constructor
  · rintro ⟨i, hi, e⟩
    rw [List.mem_range] at hi
    exact ⟨i, by omega, e⟩
  · rintro ⟨i, hi, e⟩
    exact ⟨i, by rw [List.mem_range]; omega, e⟩

/-- Without overflow each entry of `MD` is `floor(M / ndev)` or `ceil(M / ndev)`. -/
theorem MD_floor_or_ceil (M ndev : Int) (i : Nat) (hM : 0 < M) (h1 : 1 ≤ ndev)
    (h4 : ndev ≤ 4) (hov : M * ndev ≤ 2147483647) (hi : (i : Int) < ndev) :
    (MD M ndev i : Int) = M / ndev ∨ (MD M ndev i : Int) = (M + ndev - 1) / ndev := by
  obtain ⟨e, -, -, -⟩ := MD_exact M ndev i hM h1 hov hi
  rw [e]
  have hi' : i < 4 := by omega
  interval_cases ndev <;> interval_cases i <;> omega

/-- Without overflow the `int` computed on line 177, the entry `MD[i]` and the row
count that the kernel reads from it are one number, and it is at least 1 when
there are no more devices than rows. -/
theorem MD_int_exact (M ndev : Int) (i : Nat) (hM : 0 < M) (h1 : 1 ≤ ndev) (h4 : ndev ≤ 4)
    (hn : ndev ≤ M) (hov : M * ndev ≤ 2147483647) (hi : (i : Int) < ndev) :
    1 ≤ MD_int M ndev i ∧ (MD M ndev i : Int) = MD_int M ndev i ∧
      rowsArg (MD M ndev) i = MD_int M ndev i := by
  obtain ⟨e, h2, h3, h5⟩ := MD_exact M ndev i hM h1 hov hi
  have hfc := MD_floor_or_ceil M ndev i hM h1 h4 hov hi
  have hq : 1 ≤ M / ndev ∧ 1 ≤ (M + ndev - 1) / ndev := by
    interval_cases ndev <;> omega
  have hb : -2147483648 ≤ MD_int M ndev i ∧ MD_int M ndev i < 2147483648 := by
    unfold MD_int isub
    exact wrapInt_bounds _
  have hmd : (MD M ndev i : Int) = MD_int M ndev i := by
    have e2 := MD_eq_toSizeT M ndev i
    generalize MD_int M ndev i = v at *
    rw [e2] at e
    rw [e2]
    unfold toSizeT at e ⊢
    omega
  refine ⟨by omega, hmd, ?_⟩
  unfold rowsArg
  rw [hmd]
  exact wrapInt_id _ hb.1 hb.2

/-! ## Claims on the device count and the row partition -/

/-- C5. For every device count `available >= 1` that the platform reports and
every `M > 0`, the count that `mat_mul_init` selects is
`min(available, M, MAX_DEV)` and the device query does not fail; `M == 1` gives
`ndev == 1`, and `M < available` gives `ndev == min(M, MAX_DEV)`. -/
theorem device_count_clamp (available M : Int) (ha : 1 ≤ available) (hM : 0 < M) :
    mat_mul_init_ndev available M = min available (min M MAX_DEV) ∧
      mat_mul_init_devices available M = some (min available (min M MAX_DEV)) ∧
      (M = 1 → mat_mul_init_ndev available M = 1) ∧
      (M < available → mat_mul_init_ndev available M = min M MAX_DEV) := by
  have hr := mat_mul_init_ndev_range available M ha hM
  have e : mat_mul_init_ndev available M = min available (min M MAX_DEV) := by
    unfold mat_mul_init_ndev MAX_DEV
    simp only []
    split <;> split <;> omega
  refine ⟨e, ?_, ?_, ?_⟩
  · unfold mat_mul_init_devices
    rw [if_neg (by omega), if_neg (by omega), e]
  · intro h
    rw [e]
    unfold MAX_DEV
    omega
  · intro h
    rw [e]
    unfold MAX_DEV
    omega

theorem device_count_clamp_witness :
    mat_mul_init_ndev 8 3 = min 8 (min 3 MAX_DEV) ∧
      mat_mul_init_devices 8 3 = some (min 8 (min 3 MAX_DEV)) ∧
      ((3 : Int) = 1 → mat_mul_init_ndev 8 3 = 1) ∧
      ((3 : Int) < 8 → mat_mul_init_ndev 8 3 = min 3 MAX_DEV) :=
  device_count_clamp 8 3 (by decide) (by decide)

/-- C6 (amended). For every `int` `M > 0` and `available >= 1` such that
`M * ndev <= INT_MAX` for the selected `ndev` (no product on line 177 overflows),
the selected `ndev` lies in `[1, min(MAX_DEV, M)]` and every device `i` in
`[0, ndev)` has `MD[i] >= 1`: the `int` computed on line 177 is at least 1, and
the entry `MD[i]` and the row count passed to the kernel are that number. -/
theorem no_device_without_rows (available M : Int) (ha : 1 ≤ available) (hM : 0 < M)
    (hov : M * mat_mul_init_ndev available M ≤ INT_MAX) :
    1 ≤ mat_mul_init_ndev available M ∧
      mat_mul_init_ndev available M ≤ min MAX_DEV M ∧
      ∀ i : Nat, (i : Int) < mat_mul_init_ndev available M →
        1 ≤ MD_int M (mat_mul_init_ndev available M) i ∧
        (MD M (mat_mul_init_ndev available M) i : Int) =
          MD_int M (mat_mul_init_ndev available M) i ∧
        rowsArg (MD M (mat_mul_init_ndev available M)) i =
          MD_int M (mat_mul_init_ndev available M) i := by
  obtain ⟨r1, r2, r3⟩ := mat_mul_init_ndev_range available M ha hM
  unfold MAX_DEV at r2
  unfold INT_MAX at hov
  refine ⟨r1, ?_, ?_⟩
  · unfold MAX_DEV
    omega
  · intro i hi
    exact MD_int_exact M (mat_mul_init_ndev available M) i hM r1 r2 r3 hov hi

theorem no_device_without_rows_witness :
    mat_mul_init_MD 5 (mat_mul_init_ndev 8 5) = [1, 1, 1, 2] ∧
    (1 ≤ mat_mul_init_ndev 8 5 ∧
      mat_mul_init_ndev 8 5 ≤ min MAX_DEV 5 ∧
      ∀ i : Nat, (i : Int) < mat_mul_init_ndev 8 5 →
        1 ≤ MD_int 5 (mat_mul_init_ndev 8 5) i ∧
        (MD 5 (mat_mul_init_ndev 8 5) i : Int) = MD_int 5 (mat_mul_init_ndev 8 5) i ∧
        rowsArg (MD 5 (mat_mul_init_ndev 8 5)) i = MD_int 5 (mat_mul_init_ndev 8 5) i) :=
  ⟨by decide, no_device_without_rows 8 5 (by decide) (by decide) (by decide)⟩

/-- C6 as stated fails: for `available = 2` and `M = 2^30` the selected `ndev` is
2, the product `M * 2` overflows `int` on line 177, and for device 1 the `int`
computed there is `-1610612736`, which is also the row count the kernel reads
from `MD[1]`; device 1 is given no row. -/
theorem device_without_rows_overflow :
    (1 : Int) ≤ 2 ∧ (0 : Int) < 1073741824 ∧ (1073741824 : Int) ≤ INT_MAX ∧
      mat_mul_init_ndev 2 1073741824 = 2 ∧
      ((1 : Nat) : Int) < mat_mul_init_ndev 2 1073741824 ∧
      MD_int 1073741824 (mat_mul_init_ndev 2 1073741824) 1 = -1610612736 ∧
      ¬ (1 ≤ MD_int 1073741824 (mat_mul_init_ndev 2 1073741824) 1) ∧
      rowsArg (MD 1073741824 (mat_mul_init_ndev 2 1073741824)) 1 = -1610612736 := by
  decide

/-- C1 (amended). For every `int` `M > 0` and every `ndev` with
`1 <= ndev <= min(MAX_DEV, M)` such that `M * ndev <= INT_MAX` (no product on
line 177 overflows), the row counts written by `mat_mul_init` sum to `M`. -/
theorem rows_sum_eq_M (M ndev : Int) (hM : 0 < M) (h1 : 1 ≤ ndev)
    (hn : ndev ≤ min MAX_DEV M) (hov : M * ndev ≤ INT_MAX) :
    ((mat_mul_init_MD M ndev).sum : Int) = M := by
  unfold INT_MAX at hov
  rw [mat_mul_init_MD_sum]
  exact rowsBefore_total M ndev hM h1 hov

theorem rows_sum_eq_M_witness : ((mat_mul_init_MD 56 2).sum : Int) = 56 :=
  rows_sum_eq_M 56 2 (by decide) (by decide) (by decide) (by decide)

/-- C1 as stated fails: `M = 2^30` and `ndev = 2` are admissible, `M * 2`
overflows `int` on line 177, and the entries of `MD` do not sum to `M`, neither
as exact numbers nor in `size_t` arithmetic. -/
theorem rows_sum_overflow :
    (0 : Int) < 1073741824 ∧ (1073741824 : Int) ≤ INT_MAX ∧ (1 : Int) ≤ 2 ∧
      (2 : Int) ≤ min MAX_DEV 1073741824 ∧
      mat_mul_init_MD 1073741824 2 = [536870912, 18446744072098938880] ∧
      ((mat_mul_init_MD 1073741824 2).sum : Int) ≠ 1073741824 ∧
      zadd (MD 1073741824 2 0) (MD 1073741824 2 1) ≠ toSizeT 1073741824 := by
  decide

/-- C2 (amended). For every `int` `M > 0` and every `ndev` with
`1 <= ndev <= min(MAX_DEV, M)` such that `M * ndev <= INT_MAX`, each `MD[i]` is
`floor(M / ndev)` or `ceil(M / ndev)`, and any two entries of `MD` differ by at
most 1 (so `max - min <= 1`). -/
theorem rows_balanced (M ndev : Int) (hM : 0 < M) (h1 : 1 ≤ ndev)
    (hn : ndev ≤ min MAX_DEV M) (hov : M * ndev ≤ INT_MAX) :
    (∀ i : Nat, (i : Int) < ndev →
      (MD M ndev i : Int) = M / ndev ∨ (MD M ndev i : Int) = (M + ndev - 1) / ndev) ∧
    (∀ a ∈ mat_mul_init_MD M ndev, ∀ b ∈ mat_mul_init_MD M ndev, a ≤ b + 1) := by
  unfold INT_MAX at hov
  unfold MAX_DEV at hn
  have h4 : ndev ≤ 4 := by omega
  refine ⟨fun i hi => MD_floor_or_ceil M ndev i hM h1 h4 hov hi, ?_⟩
  intro a ha b hb
  rw [mem_mat_mul_init_MD] at ha hb
  obtain ⟨i, hi, rfl⟩ := ha
  obtain ⟨j, hj, rfl⟩ := hb
  have ei := MD_floor_or_ceil M ndev i hM h1 h4 hov hi
  have ej := MD_floor_or_ceil M ndev j hM h1 h4 hov hj
  have hc : (M + ndev - 1) / ndev ≤ M / ndev + 1 ∧ M / ndev ≤ (M + ndev - 1) / ndev := by
    interval_cases ndev <;> omega
  omega

theorem rows_balanced_witness :
    mat_mul_init_MD 56 2 = [28, 28] ∧
    (∀ i : Nat, (i : Int) < 2 →
      (MD 56 2 i : Int) = 56 / 2 ∨ (MD 56 2 i : Int) = (56 + 2 - 1) / 2) ∧
    (∀ a ∈ mat_mul_init_MD 56 2, ∀ b ∈ mat_mul_init_MD 56 2, a ≤ b + 1) :=
  ⟨by decide, rows_balanced 56 2 (by decide) (by decide) (by decide) (by decide)⟩

/-- C2 as stated fails: `M = 2^30` and `ndev = 2` are admissible, `M * 2`
overflows `int` on line 177, and the two entries of `MD` differ by more
than 1. -/
theorem rows_unbalanced_overflow :
    (0 : Int) < 1073741824 ∧ (1073741824 : Int) ≤ INT_MAX ∧ (1 : Int) ≤ 2 ∧
      (2 : Int) ≤ min MAX_DEV 1073741824 ∧
      MD 1073741824 2 0 = 536870912 ∧ MD 1073741824 2 1 = 18446744072098938880 ∧
      MD 1073741824 2 0 ∈ mat_mul_init_MD 1073741824 2 ∧
      MD 1073741824 2 1 ∈ mat_mul_init_MD 1073741824 2 ∧
      ¬ (MD 1073741824 2 1 ≤ MD 1073741824 2 0 + 1) := by
  decide

/-! ## The launch grid -/

theorem lws_zero : lws 0 = 56 := by decide

theorem lws_one : lws 1 = 7 := by decide

/-- The rounding of line 63 without wrap-around. -/
theorem roundUp_exact (g l : Nat) (hl : 0 < l) (hg : g + l - 1 < SIZE_MOD) :
    roundUp g l = (g + l - 1) / l * l := by
  unfold SIZE_MOD at hg
  have hx : zsub (zadd g l) 1 = g + l - 1 := by
    unfold zsub zadd SIZE_MOD
    omega
  unfold roundUp zdiv
  rw [hx]
  unfold zmul SIZE_MOD
  apply Nat.mod_eq_of_lt
  have := Nat.div_mul_le_self (g + l - 1) l
  omega

theorem roundUp_ge (g l : Nat) (hl : 0 < l) : g ≤ (g + l - 1) / l * l := by
  have h1 := Nat.div_add_mod (g + l - 1) l
  have h2 := Nat.mod_lt (g + l - 1) hl
  rw [Nat.mul_comm] at h1
  omega

/-- Line 58, dimension 0, when `M + ndev - 1` does not overflow. -/
theorem gws_init_zero (M N ndev : Int) (hM : 0 < M) (h1 : 1 ≤ ndev)
    (hov : M + ndev - 1 ≤ 2147483647) :
    (gws_init M N ndev 0 : Int) = (M + ndev - 1) / ndev ∧
      0 ≤ (M + ndev - 1) / ndev ∧ (M + ndev - 1) / ndev ≤ 2147483647 := by
  have hq0 : 0 ≤ (M + ndev - 1) / ndev := Int.ediv_nonneg (by omega) (by omega)
  have hq1 : (M + ndev - 1) / ndev ≤ M + ndev - 1 := Int.ediv_le_self ndev (by omega)
  refine ⟨?_, hq0, by omega⟩
  have e : isub (iadd M ndev) 1 = M + ndev - 1 := by
    unfold isub iadd wrapInt
    omega
  unfold gws_init
  rw [if_pos rfl, e]
  unfold idiv
  rw [Int.tdiv_eq_ediv (by omega) (by omega), wrapInt_id _ (by omega) (by omega)]
  exact toSizeT_of_nonneg _ hq0 (by omega)

/-- Line 58, dimension 1, when `N + ITEMS - 1` does not overflow. -/
theorem gws_init_one (M N ndev : Int) (hN : 0 < N) (hov : N + 7 ≤ 2147483647) :
    (gws_init M N ndev 1 : Int) = (N + 7) / 8 := by
  unfold gws_init
  rw [if_neg (by decide)]
  unfold idiv isub iadd ITEMS
  rw [tdiv_cases _ _ (by decide)]
  unfold wrapInt toSizeT
  split <;> omega

/-- Line 58, dimension 1, for every `int` `N > 0`: the value stored in `gws[1]`
is at least `N / ITEMS` and leaves room for the rounding of line 63. -/
theorem gws_init_one_range (M N ndev : Int) (hN : 0 < N) (hN2 : N ≤ 2147483647) :
    N ≤ (gws_init M N ndev 1 : Int) * 8 ∧ gws_init M N ndev 1 + 7 - 1 < SIZE_MOD := by
  unfold gws_init SIZE_MOD
  rw [if_neg (by decide)]
  unfold idiv isub iadd ITEMS
  rw [tdiv_cases _ _ (by decide)]
  have hb := wrapInt_bounds (wrapInt (N + 8) - 1)
  have hc : wrapInt (wrapInt (N + 8) - 1) = N + 7 ∨
      wrapInt (wrapInt (N + 8) - 1) = N + 7 - 4294967296 := by
    unfold wrapInt
    omega
  generalize wrapInt (wrapInt (N + 8) - 1) = x at *
  have hq : -2147483648 ≤ (if 0 ≤ x then x / 8 else -(-x / 8)) ∧
      (if 0 ≤ x then x / 8 else -(-x / 8)) < 2147483648 := by
    split <;> omega
  rw [wrapInt_id _ hq.1 hq.2]
  unfold toSizeT
  split <;> omega

/-- Line 58, dimension 0, for every `int` `M > 0`: the value stored in `gws[0]`
leaves room for the rounding of line 63, also when `M + ndev - 1` overflows. -/
theorem gws_init_zero_range (M N ndev : Int) (hM : 0 < M) (hM2 : M ≤ 2147483647)
    (h1 : 1 ≤ ndev) (h4 : ndev ≤ 4) :
    gws_init M N ndev 0 + 56 - 1 < SIZE_MOD := by
  unfold gws_init SIZE_MOD
  rw [if_pos rfl]
  unfold idiv isub iadd
  have hb := wrapInt_bounds (wrapInt (M + ndev) - 1)
  have hc : wrapInt (wrapInt (M + ndev) - 1) = M + ndev - 1 ∨
      wrapInt (wrapInt (M + ndev) - 1) = M + ndev - 1 - 4294967296 := by
    unfold wrapInt
    omega
  generalize wrapInt (wrapInt (M + ndev) - 1) = x at *
  have hq := tdiv_bounds x ndev h1 hb.1 hb.2
  rw [wrapInt_id _ hq.1 hq.2]
  clear hq
  interval_cases ndev <;>
    simp only [tdiv_cases _ _ (show (0:Int) < 1 by decide),
      tdiv_cases _ _ (show (0:Int) < 2 by decide),
      tdiv_cases _ _ (show (0:Int) < 3 by decide),
      tdiv_cases _ _ (show (0:Int) < 4 by decide)] <;>
    unfold toSizeT <;>
    split <;> omega

/-- Every value that `mat_mul` rounds on line 63 is rounded without wrap-around:
for all `int` `M, N > 0` and `ndev` in `[1, MAX_DEV]` both entries of `gws` are
multiples of the local size and at least the raw size. -/
theorem gws_rounded (M N ndev : Int) (hM : 0 < M) (hM2 : M ≤ 2147483647) (hN : 0 < N)
    (hN2 : N ≤ 2147483647) (h1 : 1 ≤ ndev) (h4 : ndev ≤ 4) (d : Nat) (hd : d ≤ 1) :
    gws M N ndev d % lws d = 0 ∧ gws_init M N ndev d ≤ gws M N ndev d := by
  unfold gws
  interval_cases d
  · rw [lws_zero, roundUp_exact _ 56 (by decide) (gws_init_zero_range M N ndev hM hM2 h1 h4)]
    exact ⟨Nat.mul_mod_left _ _, roundUp_ge _ 56 (by decide)⟩
  · rw [lws_one, roundUp_exact _ 7 (by decide) (gws_init_one_range M N ndev hN hN2).2]
    exact ⟨Nat.mul_mod_left _ _, roundUp_ge _ 7 (by decide)⟩

theorem mem_mat_mul_launches (M N ndev : Int) (l : Launch) (h : l ∈ mat_mul_launches M N ndev) :
    l.global0 = gws M N ndev 0 ∧ l.global1 = gws M N ndev 1 ∧ l.local0 = 56 ∧
      l.local1 = 7 := by
  unfold mat_mul_launches at h
  rw [List.mem_map] at h
  obtain ⟨i, -, rfl⟩ := h
  exact ⟨rfl, rfl, lws_zero, lws_one⟩

theorem mat_mul_launches_dev (M N ndev : Int) :
    (mat_mul_launches M N ndev).map Launch.dev = List.range ndev.toNat := by
  unfold mat_mul_launches
  rw [List.map_map]
  exact List.map_id _

/-- Lines 58-64, dimension 0, when `M + ndev - 1` does not overflow. -/
theorem gws_zero_exact (M N ndev : Int) (hM : 0 < M) (h1 : 1 ≤ ndev)
    (hov : M + ndev - 1 ≤ 2147483647) :
    (gws M N ndev 0 : Int) = ((M + ndev - 1) / ndev + 56 - 1) / 56 * 56 ∧
      (M + ndev - 1) / ndev ≤ (gws M N ndev 0 : Int) := by
  obtain ⟨e, e0, e1⟩ := gws_init_zero M N ndev hM h1 hov
  unfold gws
  rw [lws_zero]
  generalize gws_init M N ndev 0 = g at *
  have hr := roundUp_exact g 56 (by decide) (by unfold SIZE_MOD; omega)
  have hg := roundUp_ge g 56 (by decide)
  rw [hr]
  omega

/-- Lines 58-64, dimension 1, when `N + ITEMS - 1` does not overflow. -/
theorem gws_one_exact (M N ndev : Int) (hN : 0 < N) (hov : N + 7 ≤ 2147483647) :
    (gws M N ndev 1 : Int) = ((N + 8 - 1) / 8 + 7 - 1) / 7 * 7 := by
  have e := gws_init_one M N ndev hN hov
  unfold gws
  rw [lws_one]
  generalize gws_init M N ndev 1 = g at *
  have hr := roundUp_exact g 7 (by decide) (by unfold SIZE_MOD; omega)
  rw [hr]
  omega

/-- Lines 58-64, dimension 1, for every `int` `N > 0`. -/
theorem gws_one_covers (M N ndev : Int) (hN : 0 < N) (hN2 : N ≤ 2147483647) :
    N ≤ (gws M N ndev 1 : Int) * 8 := by
  obtain ⟨e, e1⟩ := gws_init_one_range M N ndev hN hN2
  unfold gws
  rw [lws_one]
  generalize gws_init M N ndev 1 = g at *
  have hr := roundUp_exact g 7 (by decide) e1
  have hg := roundUp_ge g 7 (by decide)
  rw [hr]
  omega

/-! ## Claims on the launch grid -/

/-- C7 (amended). For any raw global size `g` and any local block size `l > 0`
with `g + l - 1 <= SIZE_MAX` (the sum on line 63 does not wrap around), the
value `(g + l - 1) / l * l` computed in `size_t` arithmetic is a multiple of `l`
and at least `g`. -/
theorem grid_rounding (g l : Nat) (hl : 0 < l) (hg : g + l - 1 < SIZE_MOD) :
    roundUp g l % l = 0 ∧ g ≤ roundUp g l := by
  rw [roundUp_exact g l hl hg]
  exact ⟨Nat.mul_mod_left _ _, roundUp_ge g l hl⟩

theorem grid_rounding_witness :
    roundUp 25 16 = 32 ∧ roundUp 25 16 % 16 = 0 ∧ 25 ≤ roundUp 25 16 :=
  ⟨by decide, grid_rounding 25 16 (by decide) (by decide)⟩

/-- C7 as stated fails: for the raw size `g = SIZE_MAX` and the block size
`l = 56` of the code the sum `g + l - 1` wraps around and the rounded value is
`0`, which is below `g`. -/
theorem grid_rounding_wraps :
    (0 : Nat) < 56 ∧ 18446744073709551615 < SIZE_MOD ∧
      roundUp 18446744073709551615 56 = 0 ∧
      ¬ (18446744073709551615 ≤ roundUp 18446744073709551615 56) := by
  decide

/-- C8 (amended). For all `int` `M, N > 0` with `M + ndev - 1 <= INT_MAX` and
`N + ITEMS - 1 <= INT_MAX` and every `ndev` in `[1, min(MAX_DEV, M)]`, `mat_mul`
launches one grid per device `i` in `[0, ndev)`, the same on every device: its
global size in dimension 0 is `ceil(ceil(M / ndev) / 56) * 56` (the rounding of
the largest row share, not of `MD[i]`), in dimension 1 it is
`ceil(ceil(N / 8) / 7) * 7`, and the local sizes are 56 and 7. -/
theorem launch_grid_shared (M N ndev : Int) (hM : 0 < M) (hN : 0 < N) (h1 : 1 ≤ ndev)
    (hn : ndev ≤ min MAX_DEV M) (hovM : M + ndev - 1 ≤ INT_MAX)
    (hovN : N + ITEMS - 1 ≤ INT_MAX) :
    (mat_mul_launches M N ndev).map Launch.dev = List.range ndev.toNat ∧
      ∀ l ∈ mat_mul_launches M N ndev,
        (l.global0 : Int) = ((M + ndev - 1) / ndev + 56 - 1) / 56 * 56 ∧
        (l.global1 : Int) = ((N + 8 - 1) / 8 + 7 - 1) / 7 * 7 ∧
        l.local0 = 56 ∧ l.local1 = 7 := by
  unfold INT_MAX at hovM hovN
  unfold ITEMS at hovN
  refine ⟨mat_mul_launches_dev M N ndev, ?_⟩
  intro l hl
  obtain ⟨e0, e1, e2, e3⟩ := mem_mat_mul_launches M N ndev l hl
  rw [e0, e1]
  exact ⟨(gws_zero_exact M N ndev hM h1 hovM).1, gws_one_exact M N ndev hN (by omega), e2, e3⟩

theorem launch_grid_shared_witness :
    (mat_mul_launches 113 56 2).map Launch.dev = List.range (2 : Int).toNat ∧
      ∀ l ∈ mat_mul_launches 113 56 2,
        (l.global0 : Int) = ((113 + 2 - 1) / 2 + 56 - 1) / 56 * 56 ∧
        (l.global1 : Int) = ((56 + 8 - 1) / 8 + 7 - 1) / 7 * 7 ∧
        l.local0 = 56 ∧ l.local1 = 7 :=
  launch_grid_shared 113 56 2 (by decide) (by decide) (by decide) (by decide) (by decide)
    (by decide)

/-- C8 as stated fails.  For `M = 113`, `N = 56`, `ndev = 2` device 0 has
`MD[0] = 56` rows, so the claimed global size in dimension 0 is
`ceil(56 / 56) * 56 = 56`, and the grid launched on device 0 has 112.  For
`M = INT_MAX`, `ndev = 2` the sum `M + ndev - 1` overflows and dimension 0 is
neither the claimed value nor the rounding of `ceil(M / ndev)`; for
`N = INT_MAX` the sum `N + ITEMS - 1` overflows and dimension 1 is not
`ceil(ceil(N / 8) / 7) * 7`. -/
theorem launch_grid_not_per_device :
    (MD 113 2 0 = 56 ∧
      ({ dev := 0, global0 := 112, global1 := 7, local0 := 56, local1 := 7 } : Launch) ∈
        mat_mul_launches 113 56 2 ∧
      (112 : Nat) ≠ (MD 113 2 0 + 56 - 1) / 56 * 56) ∧
    (gws 2147483647 1 2 0 = 18446744072635809840 ∧
      gws 2147483647 1 2 0 ≠ (MD 2147483647 2 0 + 56 - 1) / 56 * 56 ∧
      (gws 2147483647 1 2 0 : Int) ≠ ((2147483647 + 2 - 1) / 2 + 56 - 1) / 56 * 56) ∧
    (gws 1 2147483647 1 1 = 18446744073441116167 ∧
      (gws 1 2147483647 1 1 : Int) ≠ ((2147483647 + 8 - 1) / 8 + 7 - 1) / 7 * 7) := by
  decide

/-! ## Host slices -/

theorem toSizeT_dim (K : Int) (hK : 0 < K) (hK2 : K ≤ 2147483647) :
    toSizeT K = K.toNat ∧ 0 < K.toNat ∧ K.toNat ≤ 2147483647 := by
  unfold toSizeT
  omega

/-- The byte size `r * K * sizeof(float)` of a slice of at most `INT_MAX` rows is
computed without wrap-around. -/
theorem sliceBytes_exact (r : Nat) (K : Int) (hr : r ≤ 2147483647) (hK : 0 < K)
    (hK2 : K ≤ 2147483647) :
    zmul (zmul r (toSizeT K)) sizeofFloat = r * K.toNat * 4 := by
  obtain ⟨e, -, hk⟩ := toSizeT_dim K hK hK2
  rw [e]
  have hp : r * K.toNat ≤ 2147483647 * 2147483647 := Nat.mul_le_mul hr hk
  unfold zmul sizeofFloat SIZE_MOD
  rw [Nat.mod_eq_of_lt (by omega), Nat.mod_eq_of_lt (by omega)]

theorem nextC_eq_nextA (N : Int) (md : Nat → Nat) (i : Nat) : nextC N md i = nextA N md i := by
  induction i with
  | zero => rfl
  | succ k ih => simp only [nextC, nextA, ih]

/-- The host offset of slice `i` is the byte size of the rows before it, as long
as these are at most `INT_MAX` rows. -/
theorem nextA_exact (K : Int) (md : Nat → Nat) (hK : 0 < K) (hK2 : K ≤ 2147483647) (i : Nat)
    (hb : rowsBefore md i ≤ 2147483647) :
    nextA K md i = rowsBefore md i * K.toNat * 4 := by
  induction i with
  | zero => simp [nextA, rowsBefore]
  | succ k ih =>
    rw [rowsBefore_succ] at hb
    have ih' := ih (by omega)
    obtain ⟨-, -, hk⟩ := toSizeT_dim K hK hK2
    have hp : (rowsBefore md k + md k) * K.toNat ≤ 2147483647 * 2147483647 :=
      Nat.mul_le_mul hb hk
    simp only [nextA]
    rw [ih', sliceBytes_exact (md k) K (by omega) hK hK2, rowsBefore_succ]
    unfold zadd SIZE_MOD
    rw [Nat.mod_eq_of_lt (by rw [Nat.add_mul] at hp; omega)]
    rw [Nat.add_mul, Nat.add_mul]

/-- A byte lies in the slice of device `i` exactly when its row lies between the
rows before device `i` and the rows before device `i + 1`. -/
theorem slice_covers_iff (p q w b : Nat) (hw : 0 < w) :
    (p * w ≤ b ∧ b < p * w + (q - p) * w) ↔ (p ≤ b / w ∧ b / w < q) := by
  rw [Nat.le_div_iff_mul_le hw, Nat.div_lt_iff_lt_mul hw]
  constructor
  · rintro ⟨h1, h2⟩
    refine ⟨h1, ?_⟩
    rcases Nat.lt_or_ge p q with hpq | hpq
    · have : p * w + (q - p) * w = q * w := by
        rw [← Nat.add_mul]
        congr 1
        omega
      omega
    · have : q - p = 0 := by omega
      rw [this] at h2
      omega
  · rintro ⟨h1, h2⟩
    refine ⟨h1, ?_⟩
    rcases Nat.lt_or_ge p q with hpq | hpq
    · have : p * w + (q - p) * w = q * w := by
        rw [← Nat.add_mul]
        congr 1
        omega
      omega
    · have := Nat.mul_le_mul_right w hpq
      omega

/-- Every row below the rows before device `n` belongs to one device below `n`. -/
theorem row_owner_exists (md : Nat → Nat) (n r : Nat) (h : r < rowsBefore md n) :
    ∃ i, i < n ∧ rowsBefore md i ≤ r ∧ r < rowsBefore md (i + 1) := by
  induction n with
  | zero => simp [rowsBefore] at h
  | succ k ih =>
    rcases Nat.lt_or_ge r (rowsBefore md k) with hlt | hge
    · obtain ⟨i, hi, h1, h2⟩ := ih hlt
      exact ⟨i, by omega, h1, h2⟩
    · exact ⟨k, by omega, hge, h⟩

/-- A row belongs to at most one device. -/
theorem row_owner_unique (md : Nat → Nat) (i j r : Nat)
    (hi : rowsBefore md i ≤ r ∧ r < rowsBefore md (i + 1))
    (hj : rowsBefore md j ≤ r ∧ r < rowsBefore md (j + 1)) : i = j := by
  rcases Nat.lt_trichotomy i j with h | h | h
  · have := rowsBefore_mono md (i + 1) j (by omega)
    omega
  · exact h
  · have := rowsBefore_mono md (j + 1) i (by omega)
    omega

/-- The host bytes of slice `i`, in terms of rows. -/
theorem slice_region (md : Nat → Nat) (K : Int) (hK : 0 < K) (hK2 : K ≤ 2147483647) (i : Nat)
    (hb : rowsBefore md (i + 1) ≤ 2147483647) (b : Nat) :
    (nextA K md i ≤ b ∧ b < nextA K md i + zmul (zmul (md i) (toSizeT K)) sizeofFloat) ↔
      (rowsBefore md i ≤ b / (K.toNat * 4) ∧ b / (K.toNat * 4) < rowsBefore md (i + 1)) := by
  have hs := rowsBefore_succ md i
  obtain ⟨-, hk0, -⟩ := toSizeT_dim K hK hK2
  rw [nextA_exact K md hK hK2 i (by omega), sliceBytes_exact (md i) K (by omega) hK hK2,
    ← slice_covers_iff (rowsBefore md i) (rowsBefore md (i + 1)) (K.toNat * 4) b (by omega)]
  have e : rowsBefore md (i + 1) - rowsBefore md i = md i := by omega
  rw [e, Nat.mul_assoc, Nat.mul_assoc]

theorem mem_mat_mul_reads (N ndev : Int) (md : Nat → Nat) (t : Transfer) :
    t ∈ mat_mul_reads N ndev md ↔ ∃ i, i < ndev.toNat ∧
      t = { dev := i, buf := Buf.c_d, bytes := zmul (zmul (md i) (toSizeT N)) sizeofFloat,
            host := nextA N md i } := by
  unfold mat_mul_reads
  rw [List.mem_map]
  constructor
  · rintro ⟨i, hi, rfl⟩
    exact ⟨i, List.mem_range.mp hi, by rw [nextC_eq_nextA]⟩
  · rintro ⟨i, hi, rfl⟩
    exact ⟨i, List.mem_range.mpr hi, by rw [nextC_eq_nextA]⟩

theorem mem_mat_mul_writes (N K ndev : Int) (md : Nat → Nat) (t : Transfer) :
    t ∈ mat_mul_writes N K ndev md ↔ ∃ i, i < ndev.toNat ∧
      (t = { dev := i, buf := Buf.a_d, bytes := zmul (zmul (md i) (toSizeT K)) sizeofFloat,
             host := nextA K md i } ∨
       t = { dev := i, buf := Buf.b_d, bytes := zmul (toSizeT (imul K N)) sizeofFloat,
             host := 0 }) := by
  unfold mat_mul_writes
  rw [List.mem_flatMap]
  constructor
  · rintro ⟨i, hi, h⟩
    simp only [List.mem_cons, List.mem_singleton, List.mem_nil_iff, or_false] at h
    exact ⟨i, List.mem_range.mp hi, h⟩
  · rintro ⟨i, hi, h⟩
    refine ⟨i, List.mem_range.mpr hi, ?_⟩
    simp only [List.mem_cons, List.mem_singleton, List.mem_nil_iff, or_false]
    exact h

theorem mat_mul_reads_dev (N ndev : Int) (md : Nat → Nat) :
    (mat_mul_reads N ndev md).map Transfer.dev = List.range ndev.toNat := by
  unfold mat_mul_reads
  rw [List.map_map]
  exact List.map_id _

/-- Without overflow the rows before any device up to `ndev` are at most `M`. -/
theorem rowsBefore_le (M ndev : Int) (hM : 0 < M) (h1 : 1 ≤ ndev)
    (hov : M * ndev ≤ 2147483647) (i : Nat) (hi : i ≤ ndev.toNat) :
    rowsBefore (MD M ndev) i ≤ M.toNat ∧ M.toNat ≤ 2147483647 ∧
      rowsBefore (MD M ndev) ndev.toNat = M.toNat := by
  have ht := rowsBefore_total M ndev hM h1 hov
  have hm := rowsBefore_mono (MD M ndev) i ndev.toNat hi
  have hnd : M ≤ M * ndev := le_mul_of_one_le_right (by omega) (by omega)
  omega

/-- The slices of a row-major matrix with rows of `K` elements tile it: a byte
lies below `M * K * 4` exactly when one device's slice covers it, and no two
slices share a byte. -/
theorem slices_tile (M ndev K : Int) (hM : 0 < M) (h1 : 1 ≤ ndev)
    (hov : M * ndev ≤ 2147483647) (hK : 0 < K) (hK2 : K ≤ 2147483647) (b : Nat) :
    ((b : Int) < M * K * 4 ↔ ∃ i, i < ndev.toNat ∧ nextA K (MD M ndev) i ≤ b ∧
      b < nextA K (MD M ndev) i + zmul (zmul (MD M ndev i) (toSizeT K)) sizeofFloat) ∧
    (∀ i j, i < ndev.toNat → j < ndev.toNat →
      (nextA K (MD M ndev) i ≤ b ∧
        b < nextA K (MD M ndev) i + zmul (zmul (MD M ndev i) (toSizeT K)) sizeofFloat) →
      (nextA K (MD M ndev) j ≤ b ∧
        b < nextA K (MD M ndev) j + zmul (zmul (MD M ndev j) (toSizeT K)) sizeofFloat) →
      i = j) := by
  obtain ⟨-, hk0, -⟩ := toSizeT_dim K hK hK2
  have hw : 0 < K.toNat * 4 := by omega
  have hreg : ∀ i, i < ndev.toNat → ((nextA K (MD M ndev) i ≤ b ∧
      b < nextA K (MD M ndev) i + zmul (zmul (MD M ndev i) (toSizeT K)) sizeofFloat) ↔
      (rowsBefore (MD M ndev) i ≤ b / (K.toNat * 4) ∧
        b / (K.toNat * 4) < rowsBefore (MD M ndev) (i + 1))) := by
    intro i hi
    obtain ⟨hle, hm, -⟩ := rowsBefore_le M ndev hM h1 hov (i + 1) (by omega)
    exact slice_region (MD M ndev) K hK hK2 i (by omega) b
  obtain ⟨-, hm, htot⟩ := rowsBefore_le M ndev hM h1 hov 0 (by omega)
  have hlt : (b : Int) < M * K * 4 ↔ b / (K.toNat * 4) < M.toNat := by
    rw [Nat.div_lt_iff_lt_mul hw]
    have e1 : (M.toNat : Int) = M := Int.toNat_of_nonneg (by omega)
    have e2 : (K.toNat : Int) = K := Int.toNat_of_nonneg (by omega)
    rw [← e1, ← e2]
    constructor
    · intro h
      have h' : ((b : Nat) : Int) < ((M.toNat * (K.toNat * 4) : Nat) : Int) := by
        push_cast
        rw [e1, e2] at h ⊢
        linarith
      exact_mod_cast h'
    · intro h
      have h' : ((b : Nat) : Int) < ((M.toNat * (K.toNat * 4) : Nat) : Int) := by
        exact_mod_cast h
      push_cast at h'
      rw [e1, e2] at h' ⊢
      linarith
  constructor
  · rw [hlt]
    constructor
    · intro h
      rw [← htot] at h
      obtain ⟨i, hi, h1, h2⟩ := row_owner_exists (MD M ndev) ndev.toNat _ h
      exact ⟨i, hi, (hreg i hi).mpr ⟨h1, h2⟩⟩
    · rintro ⟨i, hi, h⟩
      have h' := (hreg i hi).mp h
      obtain ⟨hle, -, -⟩ := rowsBefore_le M ndev hM h1 hov (i + 1) (by omega)
      omega
  · intro i j hi hj h1 h2
    exact row_owner_unique (MD M ndev) i j _ ((hreg i hi).mp h1) ((hreg j hj).mp h2)

/-- Without overflow the offset and the length of slice `i` are the byte sizes of
the rows before device `i` and of its own rows. -/
theorem slice_exact (M ndev K : Int) (hM : 0 < M) (h1 : 1 ≤ ndev)
    (hov : M * ndev ≤ 2147483647) (hK : 0 < K) (hK2 : K ≤ 2147483647) (i : Nat)
    (hi : i < ndev.toNat) :
    nextA K (MD M ndev) i = rowsBefore (MD M ndev) i * K.toNat * 4 ∧
      zmul (zmul (MD M ndev i) (toSizeT K)) sizeofFloat = MD M ndev i * K.toNat * 4 ∧
      MD M ndev i ≤ 2147483647 := by
  obtain ⟨hle, hm, -⟩ := rowsBefore_le M ndev hM h1 hov (i + 1) (by omega)
  have hs := rowsBefore_succ (MD M ndev) i
  exact ⟨nextA_exact K (MD M ndev) hK hK2 i (by omega),
    sliceBytes_exact (MD M ndev i) K (by omega) hK hK2, by omega⟩

/-! ## Buffer and transfer sizes -/

theorem zmul_zmul (a b c : Nat) : zmul (zmul a b) c = (a * b * c) % SIZE_MOD := by
  unfold zmul
  exact Nat.mod_mul_mod

theorem mem_mat_mul_init_buffers (M N K ndev : Int) (r : BufferRequest) :
    r ∈ mat_mul_init_buffers M N K ndev ↔ ∃ i, i < ndev.toNat ∧
      (r = { dev := i, buf := Buf.a_d,
             bytes := zmul (zmul (MD M ndev i) (toSizeT K)) sizeofFloat } ∨
       r = { dev := i, buf := Buf.b_d, bytes := zmul (toSizeT (imul K N)) sizeofFloat } ∨
       r = { dev := i, buf := Buf.c_d,
             bytes := zmul (zmul (MD M ndev i) (toSizeT N)) sizeofFloat }) := by
  unfold mat_mul_init_buffers
  rw [List.mem_flatMap]
  constructor
  · rintro ⟨i, hi, h⟩
    simp only [List.mem_cons, List.mem_singleton, List.mem_nil_iff, or_false] at h
    exact ⟨i, List.mem_range.mp hi, h⟩
  · rintro ⟨i, hi, h⟩
    refine ⟨i, List.mem_range.mpr hi, ?_⟩
    simp only [List.mem_cons, List.mem_singleton, List.mem_nil_iff, or_false]
    exact h

theorem dims_of_product (N K : Int) (hN : 0 < N) (hK : 0 < K) (hov : K * N ≤ 2147483647) :
    N ≤ 2147483647 ∧ K ≤ 2147483647 := by
  have h1 : K ≤ K * N := le_mul_of_one_le_right (by omega) (by omega)
  have h2 : N ≤ K * N := le_mul_of_one_le_left (by omega) (by omega)
  omega

/-- The size of the B buffer when `K * N` does not overflow. -/
theorem bBytes_exact (N K : Int) (hN : 0 < N) (hK : 0 < K) (hov : K * N ≤ 2147483647) :
    zmul (toSizeT (imul K N)) sizeofFloat = K.toNat * N.toNat * 4 := by
  have hp : 0 < K * N := mul_pos hK hN
  unfold imul
  rw [wrapInt_id _ (by omega) (by omega)]
  have e : toSizeT (K * N) = K.toNat * N.toNat := by
    have h1 := toSizeT_of_nonneg (K * N) (by omega) (by omega)
    have e1 : (K.toNat : Int) = K := Int.toNat_of_nonneg (by omega)
    have e2 : (N.toNat : Int) = N := Int.toNat_of_nonneg (by omega)
    have h2 : ((K.toNat * N.toNat : Nat) : Int) = K * N := by
      push_cast
      rw [e1, e2]
    omega
  have hb : toSizeT (K * N) ≤ 2147483647 := by
    have h1 := toSizeT_of_nonneg (K * N) (by omega) (by omega)
    omega
  rw [← e]
  unfold zmul sizeofFloat SIZE_MOD
  exact Nat.mod_eq_of_lt (by omega)

/-! ## Claim on the buffer and transfer sizes -/

/-- C9 (amended). For all `int` `M, N, K > 0` and `ndev` in `[1, min(MAX_DEV, M)]`
such that `M * ndev <= INT_MAX` and `K * N <= INT_MAX` (no `int` product on line
177 or line 184 overflows), `mat_mul_init` requests for every device `i` buffers
of exactly `MD[i] * K * 4`, `K * N * 4` and `MD[i] * N * 4` bytes, and each
transfer that `mat_mul` issues for device `i` (A upload, B upload, C download) has
exactly the byte size of the buffer it targets. -/
theorem buffer_and_transfer_sizes (M N K ndev : Int) (hM : 0 < M) (hN : 0 < N) (hK : 0 < K)
    (h1 : 1 ≤ ndev) (hn : ndev ≤ min MAX_DEV M) (hov : M * ndev ≤ INT_MAX)
    (hovB : K * N ≤ INT_MAX) :
    mat_mul_init_buffers M N K ndev =
      (List.range ndev.toNat).flatMap (fun i =>
        [ { dev := i, buf := Buf.a_d, bytes := MD M ndev i * K.toNat * 4 },
          { dev := i, buf := Buf.b_d, bytes := K.toNat * N.toNat * 4 },
          { dev := i, buf := Buf.c_d, bytes := MD M ndev i * N.toNat * 4 } ]) ∧
    mat_mul_writes N K ndev (MD M ndev) =
      (List.range ndev.toNat).flatMap (fun i =>
        [ { dev := i, buf := Buf.a_d, bytes := MD M ndev i * K.toNat * 4,
            host := nextA K (MD M ndev) i },
          { dev := i, buf := Buf.b_d, bytes := K.toNat * N.toNat * 4, host := 0 } ]) ∧
    mat_mul_reads N ndev (MD M ndev) =
      (List.range ndev.toNat).map (fun i =>
        { dev := i, buf := Buf.c_d, bytes := MD M ndev i * N.toNat * 4,
          host := nextC N (MD M ndev) i }) ∧
    (∀ t ∈ mat_mul_writes N K ndev (MD M ndev),
      ({ dev := t.dev, buf := t.buf, bytes := t.bytes } : BufferRequest) ∈
        mat_mul_init_buffers M N K ndev) ∧
    (∀ t ∈ mat_mul_reads N ndev (MD M ndev),
      ({ dev := t.dev, buf := t.buf, bytes := t.bytes } : BufferRequest) ∈
        mat_mul_init_buffers M N K ndev) := by
  unfold INT_MAX at hov hovB
  obtain ⟨hN2, hK2⟩ := dims_of_product N K hN hK hovB
  refine ⟨?_, ?_, ?_, ?_, ?_⟩
  · unfold mat_mul_init_buffers
    apply List.flatMap_congr
    intro i hi
    rw [List.mem_range] at hi
    rw [(slice_exact M ndev K hM h1 hov hK hK2 i hi).2.1,
      (slice_exact M ndev N hM h1 hov hN hN2 i hi).2.1, bBytes_exact N K hN hK hovB]
  · unfold mat_mul_writes
    apply List.flatMap_congr
    intro i hi
    rw [List.mem_range] at hi
    rw [(slice_exact M ndev K hM h1 hov hK hK2 i hi).2.1, bBytes_exact N K hN hK hovB]
  · unfold mat_mul_reads
    apply List.map_congr_left
    intro i hi
    rw [List.mem_range] at hi
    rw [(slice_exact M ndev N hM h1 hov hN hN2 i hi).2.1]
  · intro t ht
    rw [mem_mat_mul_writes] at ht
    rw [mem_mat_mul_init_buffers]
    obtain ⟨i, hi, rfl | rfl⟩ := ht
    · exact ⟨i, hi, Or.inl rfl⟩
    · exact ⟨i, hi, Or.inr (Or.inl rfl)⟩
  · intro t ht
    rw [mem_mat_mul_reads] at ht
    rw [mem_mat_mul_init_buffers]
    obtain ⟨i, hi, rfl⟩ := ht
    exact ⟨i, hi, Or.inr (Or.inr rfl)⟩

theorem buffer_and_transfer_sizes_witness :
    (mat_mul_init_buffers 56 56 56 2 =
      [ { dev := 0, buf := Buf.a_d, bytes := 28 * 56 * 4 },
        { dev := 0, buf := Buf.b_d, bytes := 56 * 56 * 4 },
        { dev := 0, buf := Buf.c_d, bytes := 28 * 56 * 4 },
        { dev := 1, buf := Buf.a_d, bytes := 28 * 56 * 4 },
        { dev := 1, buf := Buf.b_d, bytes := 56 * 56 * 4 },
        { dev := 1, buf := Buf.c_d, bytes := 28 * 56 * 4 } ] ∧
     mat_mul_writes 56 56 2 (MD 56 2) =
      [ { dev := 0, buf := Buf.a_d, bytes := 28 * 56 * 4, host := 0 },
        { dev := 0, buf := Buf.b_d, bytes := 56 * 56 * 4, host := 0 },
        { dev := 1, buf := Buf.a_d, bytes := 28 * 56 * 4, host := 28 * 56 * 4 },
        { dev := 1, buf := Buf.b_d, bytes := 56 * 56 * 4, host := 0 } ]) ∧
    (mat_mul_init_buffers 56 56 56 2 =
      (List.range (2 : Int).toNat).flatMap (fun i =>
        [ { dev := i, buf := Buf.a_d, bytes := MD 56 2 i * (56 : Int).toNat * 4 },
          { dev := i, buf := Buf.b_d, bytes := (56 : Int).toNat * (56 : Int).toNat * 4 },
          { dev := i, buf := Buf.c_d, bytes := MD 56 2 i * (56 : Int).toNat * 4 } ]) ∧
    mat_mul_writes 56 56 2 (MD 56 2) =
      (List.range (2 : Int).toNat).flatMap (fun i =>
        [ { dev := i, buf := Buf.a_d, bytes := MD 56 2 i * (56 : Int).toNat * 4,
            host := nextA 56 (MD 56 2) i },
          { dev := i, buf := Buf.b_d, bytes := (56 : Int).toNat * (56 : Int).toNat * 4,
            host := 0 } ]) ∧
    mat_mul_reads 56 2 (MD 56 2) =
      (List.range (2 : Int).toNat).map (fun i =>
        { dev := i, buf := Buf.c_d, bytes := MD 56 2 i * (56 : Int).toNat * 4,
          host := nextC 56 (MD 56 2) i }) ∧
    (∀ t ∈ mat_mul_writes 56 56 2 (MD 56 2),
      ({ dev := t.dev, buf := t.buf, bytes := t.bytes } : BufferRequest) ∈
        mat_mul_init_buffers 56 56 56 2) ∧
    (∀ t ∈ mat_mul_reads 56 2 (MD 56 2),
      ({ dev := t.dev, buf := t.buf, bytes := t.bytes } : BufferRequest) ∈
        mat_mul_init_buffers 56 56 56 2)) :=
  ⟨by decide, buffer_and_transfer_sizes 56 56 56 2 (by decide) (by decide) (by decide)
    (by decide) (by decide) (by decide) (by decide)⟩

/-- C9 as stated fails.  For `M = 1`, `K = 65536`, `N = 65537`, `ndev = 1` the
`int` product `K * N` on line 184 wraps to 65536: the B buffer is requested with
262144 bytes, not `K * N * 4 = 17180131328`, every request is granted by a device
that allocates up to `2^32` bytes, and `mat_mul` uploads 262144 bytes of B.  For
`M = 2^30`, `N = K = 1`, `ndev = 2` the product `M * 2` on line 177 overflows and
line 182 requests 18446744067267100672 bytes for `a_d[1]`, which is not
`MD[1] * K * 4`. -/
theorem buffer_sizes_overflow :
    ((0 : Int) < 1 ∧ (0 : Int) < 65537 ∧ (0 : Int) < 65536 ∧ (1 : Int) ≤ min MAX_DEV 1 ∧
      mat_mul_init_allocates 4294967296 1 65537 65536 1 = true ∧
      mat_mul_init_buffers 1 65537 65536 1 =
        [ { dev := 0, buf := Buf.a_d, bytes := 262144 },
          { dev := 0, buf := Buf.b_d, bytes := 262144 },
          { dev := 0, buf := Buf.c_d, bytes := 262148 } ] ∧
      (262144 : Nat) ≠ 65536 * 65537 * 4 ∧
      ({ dev := 0, buf := Buf.b_d, bytes := 262144, host := 0 } : Transfer) ∈
        mat_mul_writes 65537 65536 1 (MD 1 1)) ∧
    ((0 : Int) < 1073741824 ∧ (1073741824 : Int) ≤ INT_MAX ∧
      (2 : Int) ≤ min MAX_DEV 1073741824 ∧
      ({ dev := 1, buf := Buf.a_d, bytes := 18446744067267100672 } : BufferRequest) ∈
        mat_mul_init_buffers 1073741824 1 1 2 ∧
      MD 1073741824 2 1 = 18446744072098938880 ∧
      (18446744067267100672 : Nat) ≠ MD 1073741824 2 1 * 1 * 4) := by
  decide

/-! ## Data flow of `mat_mul` -/

/-- The A slice of device `i` after its upload. -/
theorem upload_a (A B : Mem) (N K : Int) (md : Nat → Nat) (dev : Nat → DeviceMem)
    (hK : 0 < K) (hK2 : K ≤ 2147483647) (i : Nat)
    (hb : rowsBefore md (i + 1) ≤ 2147483647) (x : Nat) (hx : x < md i * K.toNat) :
    (mat_mul_upload A B N K md dev i).a_d x = A (rowsBefore md i * K.toNat + x) := by
  have hs := rowsBefore_succ md i
  show clEnqueueWriteBuffer (dev i).a_d (zmul (zmul (md i) (toSizeT K)) sizeofFloat) A
      (nextA K md i) x = _
  rw [nextA_exact K md hK hK2 i (by omega), sliceBytes_exact (md i) K (by omega) hK hK2]
  unfold clEnqueueWriteBuffer
  rw [if_pos (by omega), Nat.mul_div_cancel _ (by decide)]

/-- The B buffer of a device after its upload, when `K * N` does not overflow. -/
theorem upload_b (A B : Mem) (N K : Int) (md : Nat → Nat) (dev : Nat → DeviceMem)
    (hN : 0 < N) (hK : 0 < K) (hov : K * N ≤ 2147483647) (i : Nat) (y : Nat)
    (hy : y < K.toNat * N.toNat) :
    (mat_mul_upload A B N K md dev i).b_d y = B y := by
  show clEnqueueWriteBuffer (dev i).b_d (zmul (toSizeT (imul K N)) sizeofFloat) B 0 y = _
  rw [bBytes_exact N K hN hK hov]
  unfold clEnqueueWriteBuffer
  rw [if_pos (by omega), Nat.zero_div, Nat.zero_add]

/-- The kernel of device `i` computes the rows of the product that follow the
rows before device `i`. -/
theorem kernel_slice (kernel : Kernel) (hker : KernelContract kernel) (A B : Mem) (N K : Int)
    (md : Nat → Nat) (dev : Nat → DeviceMem) (hN : 0 < N) (hK : 0 < K) (hov : K * N ≤ 2147483647) (i : Nat)
    (hb : rowsBefore md (i + 1) ≤ 2147483647) (j : Nat) (hj : j < md i * N.toNat) :
    mat_mul_kernel kernel A B N K md dev i j =
      matProduct A B N K (rowsBefore md i * N.toNat + j) := by
  obtain ⟨hN2, hK2⟩ := dims_of_product N K hN hK hov
  obtain ⟨-, hn0, -⟩ := toSizeT_dim N hN hN2
  obtain ⟨-, hk0, -⟩ := toSizeT_dim K hK hK2
  have hs := rowsBefore_succ md i
  have hrow : j / N.toNat < md i := (Nat.div_lt_iff_lt_mul hn0).mpr hj
  have hargs : rowsArg md i = (md i : Int) := by
    unfold rowsArg
    exact wrapInt_id _ (by omega) (by omega)
  have hdiv : (rowsBefore md i * N.toNat + j) / N.toNat = rowsBefore md i + j / N.toNat := by
    rw [Nat.add_comm, Nat.add_mul_div_right _ _ hn0, Nat.add_comm]
  have hmod : (rowsBefore md i * N.toNat + j) % N.toNat = j % N.toNat := by
    rw [Nat.add_comm, Nat.add_mul_mod_self_right]
  have hcond : 0 < N ∧ ((j / N.toNat : Nat) : Int) < rowsArg md i := by
    rw [hargs]
    exact ⟨hN, Int.ofNat_lt.mpr hrow⟩
  unfold mat_mul_kernel
  rw [hker _ _ _ _ N K j hcond.1 hcond.2]
  unfold matProduct
  rw [hdiv, hmod]
  refine congrArg List.sum ?_
  apply List.map_congr_left
  intro c hc
  rw [List.mem_range] at hc
  have hx : (j / N.toNat + 1) * K.toNat ≤ md i * K.toNat := Nat.mul_le_mul_right _ hrow
  rw [Nat.add_mul, Nat.one_mul] at hx
  have hy : (c + 1) * N.toNat ≤ K.toNat * N.toNat := Nat.mul_le_mul_right _ hc
  rw [Nat.add_mul, Nat.one_mul] at hy
  have hm := Nat.mod_lt j hn0
  rw [upload_a A B N K md dev hK hK2 i hb _ (by omega),
    upload_b A B N K md dev hN hK hov i _ (by omega), Nat.add_mul, Nat.add_assoc]

/-- After `m` iterations of the download loop the rows before device `m` of `C`
hold the product. -/
theorem download_prefix (kernel : Kernel) (hker : KernelContract kernel) (A B C : Mem)
    (N K : Int) (md : Nat → Nat) (dev : Nat → DeviceMem) (hN : 0 < N) (hK : 0 < K) (hov : K * N ≤ 2147483647) (m : Nat)
    (hb : rowsBefore md m ≤ 2147483647) (j : Nat) (hj : j < rowsBefore md m * N.toNat) :
    mat_mul_download (mat_mul_kernel kernel A B N K md dev) N md C m j =
      matProduct A B N K j := by
  obtain ⟨hN2, hK2⟩ := dims_of_product N K hN hK hov
  induction m with
  | zero => simp [rowsBefore] at hj
  | succ k ih =>
    have hs := rowsBefore_succ md k
    simp only [mat_mul_download]
    unfold clEnqueueReadBuffer
    rw [nextC_eq_nextA, nextA_exact N md hN hN2 k (by omega),
      sliceBytes_exact (md k) N (by omega) hN hN2, Nat.mul_div_cancel _ (by decide)]
    rw [hs, Nat.add_mul] at hj
    split
    · rename_i hc
      have e : j = rowsBefore md k * N.toNat + (j - rowsBefore md k * N.toNat) := by omega
      rw [kernel_slice kernel hker A B N K md dev hN hK hov k hb _ (by omega), ← e]
    · rename_i hc
      exact ih (by omega) (by omega)

/-- Without overflow `mat_mul` leaves the product in the first `M * N` elements
of `C`. -/
theorem mat_mul_product (kernel : Kernel) (hker : KernelContract kernel) (A B C : Mem)
    (M N K ndev : Int) (dev : Nat → DeviceMem) (hM : 0 < M) (hN : 0 < N) (hK : 0 < K) (h1 : 1 ≤ ndev) (hov : M * ndev ≤ 2147483647)
    (hovB : K * N ≤ 2147483647) (j : Nat) (hj : (j : Int) < M * N) :
    (mat_mul kernel A B C M N K ndev (MD M ndev) dev).C j = matProduct A B N K j := by
  obtain ⟨hle, -, htot⟩ := rowsBefore_le M ndev hM h1 hov ndev.toNat (le_refl _)
  have hnd : M ≤ M * ndev := le_mul_of_one_le_right (by omega) (by omega)
  have e1 : (M.toNat : Int) = M := Int.toNat_of_nonneg (by omega)
  have e2 : (N.toNat : Int) = N := Int.toNat_of_nonneg (by omega)
  have hj' : j < rowsBefore (MD M ndev) ndev.toNat * N.toNat := by
    rw [htot]
    have h : ((j : Nat) : Int) < ((M.toNat * N.toNat : Nat) : Int) := by
      push_cast
      rw [e1, e2]
      exact hj
    exact Int.ofNat_lt.mp h
  show mat_mul_download (mat_mul_kernel kernel A B N K (MD M ndev) dev) N (MD M ndev) C
    ndev.toNat j = _
  exact download_prefix kernel hker A B C N K (MD M ndev) dev hN hK hovB ndev.toNat (by omega) j hj'

/-- The kernel `sgemm` meets the contract. -/
theorem sgemm_contract : KernelContract sgemm := by
  intro a b c rows N K j hN hrow
  unfold sgemm
  rw [if_pos ⟨hN, hrow⟩]

/-! ## Claim on the result of `mat_mul` -/

/-- C4 (amended). For every kernel that meets the contract of `sgemm`, over exact
arithmetic: for all `int` `M, N, K > 0` and every `ndev` in
`[1, min(MAX_DEV, M)]` such that `M * ndev <= INT_MAX` and `K * N <= INT_MAX` (no
`int` product of line 177 or of the B buffer size overflows), the matrix `C` that
`mat_mul` assembles equals the product `A * B` in all `M * N` elements, whatever
the buffers held before, and so equals the result of a run with `ndev = 1`. -/
theorem device_count_invariance (kernel : Kernel) (hker : KernelContract kernel)
    (A B C : Mem) (M N K ndev : Int) (dev dev1 : Nat → DeviceMem)
    (hM : 0 < M) (hN : 0 < N) (hK : 0 < K) (h1 : 1 ≤ ndev) (hn : ndev ≤ min MAX_DEV M)
    (hov : M * ndev ≤ INT_MAX) (hovB : K * N ≤ INT_MAX) :
    ∀ j : Nat, (j : Int) < M * N →
      (mat_mul kernel A B C M N K ndev (MD M ndev) dev).C j = matProduct A B N K j ∧
      (mat_mul kernel A B C M N K ndev (MD M ndev) dev).C j =
        (mat_mul kernel A B C M N K 1 (MD M 1) dev1).C j := by
  unfold INT_MAX at hov hovB
  have hnd : M ≤ M * ndev := le_mul_of_one_le_right (by omega) (by omega)
  intro j hj
  have r1 := mat_mul_product kernel hker A B C M N K ndev dev hM hN hK h1 hov hovB j hj
  have r2 := mat_mul_product kernel hker A B C M N K 1 dev1 hM hN hK (le_refl _) (by omega)
    hovB j hj
  exact ⟨r1, by rw [r1, r2]⟩

theorem device_count_invariance_witness :
    ((7 : Nat) : Int) < 3 * 4 ∧
      matProduct (fun x => x + 1) (fun x => 2 * x + 1) 4 2 7 = 81 ∧
      (mat_mul sgemm (fun x => x + 1) (fun x => 2 * x + 1) (fun _ => 0) 3 4 2 2 (MD 3 2)
        (fun _ => zeroDevice)).C 7 = matProduct (fun x => x + 1) (fun x => 2 * x + 1) 4 2 7 ∧
      (mat_mul sgemm (fun x => x + 1) (fun x => 2 * x + 1) (fun _ => 0) 3 4 2 2 (MD 3 2)
        (fun _ => zeroDevice)).C 7 =
        (mat_mul sgemm (fun x => x + 1) (fun x => 2 * x + 1) (fun _ => 0) 3 4 2 1 (MD 3 1)
          (fun _ => zeroDevice)).C 7 :=
  ⟨by decide, by decide,
    device_count_invariance sgemm sgemm_contract (fun x => x + 1) (fun x => 2 * x + 1)
      (fun _ => 0) 3 4 2 2 (fun _ => zeroDevice) (fun _ => zeroDevice) (by decide) (by decide)
      (by decide) (by decide) (by decide) (by decide) (by decide) 7 (by decide)⟩

/-- C4 as stated fails, with the kernel `sgemm` (which meets the contract), on
matrices of ones and buffers holding zeros.  For `M = 1`, `N = 1431655766`,
`K = 3`, `ndev = 1` the `int` product `K * N` wraps to 2, only two elements of B
are uploaded, and element 2 of `C` is 0 where the product has 3.  For `M = 2^30`,
`N = K = 1`, `ndev = 2` the product `M * 2` on line 177 overflows, device 1 is
given a negative row count, and element `2^29` of `C` is 0 where the product and
the run with `ndev = 1` have 1. -/
theorem device_count_overflow :
    ((0 : Int) < 1 ∧ (0 : Int) < 1431655766 ∧ (1431655766 : Int) ≤ INT_MAX ∧ (0 : Int) < 3 ∧
      (1 : Int) ≤ min MAX_DEV 1 ∧ ((2 : Nat) : Int) < 1 * 1431655766 ∧
      imul 3 1431655766 = 2 ∧
      (mat_mul sgemm (fun _ => 1) (fun _ => 1) (fun _ => 0) 1 1431655766 3 1 (MD 1 1)
        (fun _ => zeroDevice)).C 2 = 0 ∧
      matProduct (fun _ => 1) (fun _ => 1) 1431655766 3 2 = 3) ∧
    ((0 : Int) < 1073741824 ∧ (1073741824 : Int) ≤ INT_MAX ∧ (2 : Int) ≤ min MAX_DEV 1073741824 ∧
      ((536870912 : Nat) : Int) < 1073741824 * 1 ∧
      rowsArg (MD 1073741824 2) 1 = -1610612736 ∧
      (mat_mul sgemm (fun _ => 1) (fun _ => 1) (fun _ => 0) 1073741824 1 1 2 (MD 1073741824 2)
        (fun _ => zeroDevice)).C 536870912 = 0 ∧
      matProduct (fun _ => 1) (fun _ => 1) 1 1 536870912 = 1 ∧
      (mat_mul sgemm (fun _ => 1) (fun _ => 1) (fun _ => 0) 1073741824 1 1 1 (MD 1073741824 1)
        (fun _ => zeroDevice)).C 536870912 = 1) := by
  decide

/-! ## Runs that reach `mat_mul`

`mat_mul` runs only after `mat_mul_init` has returned, so only when every buffer
request of lines 181-188 was granted.  No device allocates `2^62` bytes; the
bound on `maxAlloc` below says so. -/

/-- The byte size of a slice whose row count is the image of a negative `int`
is at least `2^62`. -/
theorem sliceBytes_huge (v : Int) (K : Int) (hv : v < 0) (hv2 : -1610612736 ≤ v) (hK : 0 < K)
    (hK2 : K ≤ 2147483647) :
    4611686018427387904 ≤ zmul (zmul (toSizeT v) (toSizeT K)) sizeofFloat := by
  obtain ⟨e, hk0, hk⟩ := toSizeT_dim K hK hK2
  rw [zmul_zmul, e]
  obtain ⟨x, hx⟩ : ∃ x : Nat, toSizeT v = 18446744073709551616 - x ∧ 1 ≤ x ∧ x ≤ 1610612736 :=
    ⟨(-v).toNat, by unfold toSizeT; omega⟩
  obtain ⟨ex, hx1, hx2⟩ := hx
  rw [ex, Nat.sub_mul]
  have hy : x * K.toNat ≤ 1610612736 * 2147483647 := Nat.mul_le_mul hx2 hk
  have hy1 : 1 * 1 ≤ x * K.toNat := Nat.mul_le_mul hx1 hk0
  generalize x * K.toNat = y at *
  unfold SIZE_MOD sizeofFloat
  omega

/-- When the buffer requests of `mat_mul_init` are granted by devices that
allocate less than `2^62` bytes, no product on line 177 has overflowed. -/
theorem allocates_no_overflow (maxAlloc : Nat) (M N K ndev : Int) (hM : 0 < M)
    (hM2 : M ≤ 2147483647) (hK : 0 < K) (hK2 : K ≤ 2147483647) (h1 : 1 ≤ ndev) (h4 : ndev ≤ 4)
    (hn : ndev ≤ M) (hmax : maxAlloc < 4611686018427387904)
    (hal : mat_mul_init_allocates maxAlloc M N K ndev = true) :
    M * ndev ≤ 2147483647 := by
  by_contra hov
  obtain ⟨i, hi, hv, hv2⟩ := MD_int_overflow M ndev hM hM2 h1 h4 hn (by omega)
  have hbig := sliceBytes_huge (MD_int M ndev i) K hv hv2 hK hK2
  rw [← MD_eq_toSizeT] at hbig
  unfold mat_mul_init_allocates at hal
  rw [List.all_eq_true] at hal
  have hr := hal _ ((mem_mat_mul_init_buffers M N K ndev _).mpr ⟨i, by omega, Or.inl rfl⟩)
  unfold clCreateBuffer at hr
  simp only [decide_eq_true_eq] at hr
  omega


/-! ## Claims on `mat_mul` after a completed `mat_mul_init` -/

/-- C3. On every run that reaches `mat_mul` (the buffer requests of `mat_mul_init`
were granted, by devices that allocate less than `2^62` bytes): for all `int`
`M, N, K > 0` and `ndev` in `[1, min(MAX_DEV, M)]`, the host byte offset of
device `i`'s A upload is `(MD[0] + ... + MD[i-1]) * K * 4` and of its C download
`(MD[0] + ... + MD[i-1]) * N * 4`, with lengths `MD[i] * K * 4` and
`MD[i] * N * 4`; there is one download per device; the downloads are pairwise
disjoint and cover exactly the bytes `[0, M * N * 4)` of C, and the A uploads
cover exactly the bytes `[0, M * K * 4)` of A. -/
theorem host_slices_tile (maxAlloc : Nat) (M N K ndev : Int) (hM : 0 < M) (hN : 0 < N)
    (hK : 0 < K) (hM2 : M ≤ INT_MAX) (hN2 : N ≤ INT_MAX) (hK2 : K ≤ INT_MAX) (h1 : 1 ≤ ndev)
    (hn : ndev ≤ min MAX_DEV M) (hmax : maxAlloc < 4611686018427387904)
    (hal : mat_mul_init_allocates maxAlloc M N K ndev = true) :
    (∀ t ∈ mat_mul_writes N K ndev (MD M ndev), t.buf = Buf.a_d →
      t.host = rowsBefore (MD M ndev) t.dev * K.toNat * 4 ∧
      t.bytes = MD M ndev t.dev * K.toNat * 4) ∧
    (∀ t ∈ mat_mul_reads N ndev (MD M ndev),
      t.host = rowsBefore (MD M ndev) t.dev * N.toNat * 4 ∧
      t.bytes = MD M ndev t.dev * N.toNat * 4) ∧
    (mat_mul_reads N ndev (MD M ndev)).map Transfer.dev = List.range ndev.toNat ∧
    (∀ b : Nat, (b : Int) < M * N * 4 ↔
      ∃ t ∈ mat_mul_reads N ndev (MD M ndev), t.covers b) ∧
    (∀ b : Nat, ∀ t ∈ mat_mul_reads N ndev (MD M ndev),
      ∀ u ∈ mat_mul_reads N ndev (MD M ndev), t.covers b → u.covers b → t = u) ∧
    (∀ b : Nat, (b : Int) < M * K * 4 ↔
      ∃ t ∈ mat_mul_writes N K ndev (MD M ndev), t.buf = Buf.a_d ∧ t.covers b) := by
  unfold INT_MAX at hM2 hN2 hK2
  unfold MAX_DEV at hn
  have hov : M * ndev ≤ 2147483647 :=
    allocates_no_overflow maxAlloc M N K ndev hM hM2 hK hK2 h1 (by omega) (by omega) hmax hal
  refine ⟨?_, ?_, mat_mul_reads_dev N ndev (MD M ndev), ?_, ?_, ?_⟩
  · intro t ht hbuf
    rw [mem_mat_mul_writes] at ht
    obtain ⟨i, hi, rfl | rfl⟩ := ht
    · obtain ⟨e1, e2, -⟩ := slice_exact M ndev K hM h1 hov hK hK2 i hi
      exact ⟨e1, e2⟩
    · cases hbuf
  · intro t ht
    rw [mem_mat_mul_reads] at ht
    obtain ⟨i, hi, rfl⟩ := ht
    obtain ⟨e1, e2, -⟩ := slice_exact M ndev N hM h1 hov hN hN2 i hi
    exact ⟨e1, e2⟩
  · intro b
    rw [(slices_tile M ndev N hM h1 hov hN hN2 b).1]
    constructor
    · rintro ⟨i, hi, h⟩
      exact ⟨_, (mem_mat_mul_reads N ndev (MD M ndev) _).mpr ⟨i, hi, rfl⟩, h⟩
    · rintro ⟨t, ht, h⟩
      rw [mem_mat_mul_reads] at ht
      obtain ⟨i, hi, rfl⟩ := ht
      exact ⟨i, hi, h⟩
  · intro b t ht u hu hbt hbu
    rw [mem_mat_mul_reads] at ht hu
    obtain ⟨i, hi, rfl⟩ := ht
    obtain ⟨j, hj, rfl⟩ := hu
    have e := (slices_tile M ndev N hM h1 hov hN hN2 b).2 i j hi hj hbt hbu
    subst e
    rfl
  · intro b
    rw [(slices_tile M ndev K hM h1 hov hK hK2 b).1]
    constructor
    · rintro ⟨i, hi, h⟩
      exact ⟨_, (mem_mat_mul_writes N K ndev (MD M ndev) _).mpr ⟨i, hi, Or.inl rfl⟩, rfl, h⟩
    · rintro ⟨t, ht, hbuf, h⟩
      rw [mem_mat_mul_writes] at ht
      obtain ⟨i, hi, rfl | rfl⟩ := ht
      · exact ⟨i, hi, h⟩
      · cases hbuf

theorem host_slices_tile_witness :
    (mat_mul_init_allocates 4294967296 56 56 56 2 = true ∧
     mat_mul_reads 56 2 (MD 56 2) =
      [{ dev := 0, buf := Buf.c_d, bytes := 6272, host := 0 },
       { dev := 1, buf := Buf.c_d, bytes := 6272, host := 6272 }]) ∧
    ((∀ t ∈ mat_mul_writes 56 56 2 (MD 56 2), t.buf = Buf.a_d →
      t.host = rowsBefore (MD 56 2) t.dev * (56 : Int).toNat * 4 ∧
      t.bytes = MD 56 2 t.dev * (56 : Int).toNat * 4) ∧
    (∀ t ∈ mat_mul_reads 56 2 (MD 56 2),
      t.host = rowsBefore (MD 56 2) t.dev * (56 : Int).toNat * 4 ∧
      t.bytes = MD 56 2 t.dev * (56 : Int).toNat * 4) ∧
    (mat_mul_reads 56 2 (MD 56 2)).map Transfer.dev = List.range (2 : Int).toNat ∧
    (∀ b : Nat, (b : Int) < 56 * 56 * 4 ↔
      ∃ t ∈ mat_mul_reads 56 2 (MD 56 2), t.covers b) ∧
    (∀ b : Nat, ∀ t ∈ mat_mul_reads 56 2 (MD 56 2),
      ∀ u ∈ mat_mul_reads 56 2 (MD 56 2), t.covers b → u.covers b → t = u) ∧
    (∀ b : Nat, (b : Int) < 56 * 56 * 4 ↔
      ∃ t ∈ mat_mul_writes 56 56 2 (MD 56 2), t.buf = Buf.a_d ∧ t.covers b)) :=
  ⟨by decide, host_slices_tile 4294967296 56 56 56 2 (by decide) (by decide) (by decide)
    (by decide) (by decide) (by decide) (by decide) (by decide) (by decide) (by decide)⟩

/-- C10. On every run that reaches the launch (the buffer requests of
`mat_mul_init` were granted, by devices that allocate less than `2^62` bytes):
for all `int` `M, N > 0` and every `ndev` in `[1, min(MAX_DEV, M)]`, `mat_mul`
launches the one grid `gws` on every device `i` in `[0, ndev)`, and that grid
satisfies `gws[0] >= MD[i]` for every device and `gws[1] * ITEMS >= N`.  Both
entries come from sums that have not overflowed when `N + ITEMS - 1 <= INT_MAX`:
`gws[0]` is always `ceil(ceil(M / ndev) / 56) * 56`, and `gws[1]` is then
`ceil(ceil(N / 8) / 7) * 7`.  For the seven larger values of `N` the sum on line
58 overflows, `gws[1]` is the rounded `size_t` image of a negative `int`, and the
bound on `gws[1]` holds through that image. -/
theorem shared_grid_covers (maxAlloc : Nat) (M N K ndev : Int) (hM : 0 < M) (hN : 0 < N)
    (hK : 0 < K) (hM2 : M ≤ INT_MAX) (hN2 : N ≤ INT_MAX) (hK2 : K ≤ INT_MAX) (h1 : 1 ≤ ndev)
    (hn : ndev ≤ min MAX_DEV M) (hmax : maxAlloc < 4611686018427387904)
    (hal : mat_mul_init_allocates maxAlloc M N K ndev = true) :
    (mat_mul_launches M N ndev).map Launch.dev = List.range ndev.toNat ∧
      ∀ l ∈ mat_mul_launches M N ndev,
        l.global0 = gws M N ndev 0 ∧ l.global1 = gws M N ndev 1 ∧
        (∀ i : Nat, (i : Int) < ndev → MD M ndev i ≤ l.global0) ∧
        N ≤ (l.global1 : Int) * ITEMS ∧
        (l.global0 : Int) = ((M + ndev - 1) / ndev + 56 - 1) / 56 * 56 ∧
        (N + ITEMS - 1 ≤ INT_MAX →
          (l.global1 : Int) = ((N + 8 - 1) / 8 + 7 - 1) / 7 * 7) := by
  unfold INT_MAX at hM2 hN2 hK2
  unfold MAX_DEV at hn
  have h4 : ndev ≤ 4 := by omega
  have hov : M * ndev ≤ 2147483647 :=
    allocates_no_overflow maxAlloc M N K ndev hM hM2 hK hK2 h1 h4 (by omega) hmax hal
  have hsum : M + ndev - 1 ≤ 2147483647 := by
    interval_cases ndev <;> omega
  refine ⟨mat_mul_launches_dev M N ndev, ?_⟩
  intro l hl
  obtain ⟨e0, e1, -, -⟩ := mem_mat_mul_launches M N ndev l hl
  refine ⟨e0, e1, ?_, ?_, ?_, ?_⟩
  · intro i hi
    have hfc := MD_floor_or_ceil M ndev i hM h1 h4 hov hi
    have hg := (gws_zero_exact M N ndev hM h1 hsum).2
    have hc : M / ndev ≤ (M + ndev - 1) / ndev := by
      interval_cases ndev <;> omega
    rw [e0]
    omega
  · rw [e1]
    unfold ITEMS
    exact gws_one_covers M N ndev hN hN2
  · rw [e0]
    exact (gws_zero_exact M N ndev hM h1 hsum).1
  · intro hovN
    unfold INT_MAX ITEMS at hovN
    rw [e1]
    exact gws_one_exact M N ndev hN (by omega)

theorem shared_grid_covers_witness :
    (mat_mul_init_allocates 4294967296 113 56 56 2 = true ∧
      mat_mul_launches 113 56 2 =
        [ { dev := 0, global0 := 112, global1 := 7, local0 := 56, local1 := 7 },
          { dev := 1, global0 := 112, global1 := 7, local0 := 56, local1 := 7 } ] ∧
      mat_mul_init_MD 113 2 = [56, 57]) ∧
    ((mat_mul_launches 113 56 2).map Launch.dev = List.range (2 : Int).toNat ∧
      ∀ l ∈ mat_mul_launches 113 56 2,
        l.global0 = gws 113 56 2 0 ∧ l.global1 = gws 113 56 2 1 ∧
        (∀ i : Nat, (i : Int) < 2 → MD 113 2 i ≤ l.global0) ∧
        56 ≤ (l.global1 : Int) * ITEMS ∧
        (l.global0 : Int) = ((113 + 2 - 1) / 2 + 56 - 1) / 56 * 56 ∧
        ((56 : Int) + ITEMS - 1 ≤ INT_MAX →
          (l.global1 : Int) = ((56 + 8 - 1) / 8 + 7 - 1) / 7 * 7)) :=
  ⟨by decide, shared_grid_covers 4294967296 113 56 56 2 (by decide) (by decide) (by decide)
    (by decide) (by decide) (by decide) (by decide) (by decide) (by decide) (by decide)⟩

end MatMul
